import Mathlib

/-!
# Corporate Genome — Entity Resolution Pipeline, verified embedding

A shallow embedding of the entity-resolution core of the `corporate-genome`
browser extension (JavaScript), together with proofs and refutations of the
frozen specification claims.

Embedded components and their sources:

* `FuzzyMatcher` (string-similarity primitives, combined company-name ratio)
  — `src/modules/recognition/fuzzy-matcher.js`
* `CompanyNormalizer` (legal-suffix stripping, abbreviation expansion)
  — `src/modules/recognition/fuzzy-matcher.js` (second class in the file)
* `SecureNLPProcessor` (sanitization, cache, extraction race, ranking)
  — `src/modules/recognition/nlp-processor.js`
* `EnhancedNLPProcessor.rankEnhancedEntities`
  — `src/modules/recognition/nlp-processor-enhanced.js`
* `DOMInterpreter.calculateStructuralWeight`
  — `src/modules/recognition/dom-interpreter.js`
* `ConfidenceScorer` — `confidence-scorer.js`
* `CompanyKnowledgeBase` — `knowledge-base.js`

Modelling conventions: JavaScript numbers appearing in the scoring code are
decimal constants combined by `+ * / min max`; they are modelled as `ℚ`.
JavaScript strings are modelled as Lean `String` (the strings manipulated
here are BMP text, where JS UTF-16 code units and Lean code points agree).
`Map` objects are modelled as association lists in insertion order, which is
exactly the observable behaviour of JS `Map` (set on an existing key keeps
its position, iteration follows insertion order).  `undefined` fields are
`Option`.  Thrown exceptions are `Except`.  Wall-clock reads (`Date.now()`,
`performance.now()`) are threaded as explicit `Nat` parameters.  Promise
settlement is modelled by event-loop job indices: a promise whose executor
resolves synchronously settles during the current job (index 0), a
`setTimeout` callback runs as a macrotask at some strictly later job, and
`Promise.race` adopts the settlement with the smaller job index (ties to its
first argument, the order in which `race` subscribes).
-/

/-! ## Character classes (JS regex `\w`, `\s` without the `u` flag) -/

/-- JS `\w` without the `u` flag: `[A-Za-z0-9_]`. -/
def isWordChar (c : Char) : Bool :=
  (('A' ≤ c && c ≤ 'Z') || ('a' ≤ c && c ≤ 'z') || ('0' ≤ c && c ≤ '9') || c = '_')

/-- JS whitespace as matched by `\s`, `trim`, `split(/\s+/)` (ASCII part; the
strings handled by this code contain no exotic Unicode whitespace). -/
def isJsWs (c : Char) : Bool :=
  (c = ' ' || c = '\t' || c = '\n' || c = '\r' ||
    c = Char.ofNat 11 || c = Char.ofNat 12)

/-- `String.prototype.toLowerCase` (ASCII case mapping; the non-ASCII
characters appearing in the embedded tables are case-stable here). -/
def toLowerStr (s : String) : String := String.mk (s.data.map Char.toLower)

/-- `String.prototype.toUpperCase` (ASCII case mapping). -/
def toUpperStr (s : String) : String := String.mk (s.data.map Char.toUpper)

/-- `String.prototype.trim` on a character list. -/
def trimL (cs : List Char) : List Char :=
  ((cs.dropWhile isJsWs).reverse.dropWhile isJsWs).reverse

/-- lowercase-then-trim, the preamble shared by the ratio functions
(`str.toLowerCase().trim()`). -/
def lowerTrim (s : String) : String := String.mk (trimL (toLowerStr s).data)

/-! ## FuzzyMatcher — `fuzzy-matcher.js` -/

namespace FuzzyMatcher

/-- `levenshteinDistance` (fuzzy-matcher.js, lines 25–52).  The JS code fills
the standard DP table over prefixes; this is the same recurrence written
recursively over the two character lists. -/
def levenshteinDistance : List Char → List Char → Nat
  | [], ys => ys.length
  | x :: xs, [] => (x :: xs).length
  | x :: xs, y :: ys =>
    if x = y then levenshteinDistance xs ys
    else 1 + min (levenshteinDistance xs (y :: ys))
            (min (levenshteinDistance (x :: xs) ys) (levenshteinDistance xs ys))
termination_by xs ys => xs.length + ys.length
decreasing_by all_goals simp_arith

/-- `ratio` (lines 55–69): `1 − distance/maxLen` on the lowercased, trimmed
strings, with the early returns of the source (`!str1 || !str2` is the
JS falsiness test, true exactly on the empty string). -/
def ratio (str1 str2 : String) : ℚ :=
  if str1 = "" ∨ str2 = "" then 0
  else if str1 = str2 then 1
  else
    let s1 := lowerTrim str1
    let s2 := lowerTrim str2
    if s1 = s2 then 1
    else
      let maxLen := max s1.length s2.length
      if maxLen = 0 then 1
      else 1 - (levenshteinDistance s1.data s2.data : ℚ) / (maxLen : ℚ)

/-- `partialRatio` (lines 72–93): best `ratio` of the shorter string against
every equal-length window of the longer one.  (The JS identifier begins with
a Lean keyword, hence the changed Lean name.) -/
def bestWindowRatio (str1 str2 : String) : ℚ :=
  if str1 = "" ∨ str2 = "" then 0
  else
    let s1 := lowerTrim str1
    let s2 := lowerTrim str2
    if s1 = s2 then 1
    else
      let p := if s1.length ≤ s2.length then (s1, s2) else (s2, s1)
      let shorter := p.1
      let longer := p.2
      (List.range (longer.length - shorter.length + 1)).foldl
        (fun best i =>
          max best (ratio shorter (String.mk ((longer.data.drop i).take shorter.length))))
        0

/-- `tokenize` (lines 133–138): lowercase, replace non-word non-space
characters by spaces, split on whitespace, drop empty tokens. -/
def tokenize (s : String) : List String :=
  (((toLowerStr s).data.map (fun c => if isWordChar c || isJsWs c then c else ' ')).splitOnP
      isJsWs).filter (fun t => t ≠ []) |>.map String.mk

/-- Lexicographic comparison of two strings by code point, the order used by
JS `Array.prototype.sort()` without a comparator on BMP strings. -/
def lexLe : List Char → List Char → Bool
  | [], _ => true
  | _ :: _, [] => false
  | x :: xs, y :: ys => if x = y then lexLe xs ys else decide (x < y)

/-- Stable insertion of a string into a lexicographically sorted list. -/
def lexInsert (x : String) : List String → List String
  | [] => [x]
  | y :: ys => if lexLe y.data x.data then y :: lexInsert x ys else x :: y :: ys

/-- JS `tokens.sort()` (default lexicographic sort, stable). -/
def sortTokens (l : List String) : List String := l.foldl (fun acc x => lexInsert x acc) []

/-- `tokenSortRatio` (lines 96–106). -/
def tokenSortRatio (str1 str2 : String) : ℚ :=
  if str1 = "" ∨ str2 = "" then 0
  else
    let sorted1 := String.intercalate " " (sortTokens (tokenize str1))
    let sorted2 := String.intercalate " " (sortTokens (tokenize str2))
    ratio sorted1 sorted2

/-- The company stop-word set of the `FuzzyMatcher` constructor. -/
def stopWords : List String :=
  ["the", "and", "of", "in", "for", "a", "an", "&",
   "company", "corporation", "incorporated", "limited",
   "corp", "inc", "ltd", "llc", "co"]

/-- JS `Set` construction from a list: first occurrences, in order. -/
def dedupGo (seen : List String) : List String → List String
  | [] => []
  | x :: xs => if x ∈ seen then dedupGo seen xs else x :: dedupGo (x :: seen) xs

/-- JS `new Set(list)` as an insertion-ordered duplicate-free list. -/
def dedupFirst (l : List String) : List String := dedupGo [] l

/-- `tokenSetRatio` (lines 109–130): Jaccard similarity of the
stop-word-filtered token sets, falling back to the unfiltered sets when
filtering empties a side. -/
def tokenSetRatio (str1 str2 : String) : ℚ :=
  if str1 = "" ∨ str2 = "" then 0
  else
    let tokens1 := dedupFirst (tokenize str1)
    let tokens2 := dedupFirst (tokenize str2)
    let filtered1 := tokens1.filter (fun t => ¬ t ∈ stopWords)
    let filtered2 := tokens2.filter (fun t => ¬ t ∈ stopWords)
    let set1 := if filtered1.length > 0 then filtered1 else tokens1
    let set2 := if filtered2.length > 0 then filtered2 else tokens2
    let intersection := set1.filter (fun t => t ∈ set2)
    let union := dedupFirst (set1 ++ set2)
    if union.length = 0 then 1
    else (intersection.length : ℚ) / (union.length : ℚ)

/-- `companyNameRatio` (lines 141–171) with the default weights
0.2/0.2/0.3/0.3; the loop sums `score*weight` over the four entries and
divides by the total weight. -/
def companyNameRatio (str1 str2 : String) : ℚ :=
  let scoreR := ratio str1 str2
  let scoreP := bestWindowRatio str1 str2
  let scoreTSort := tokenSortRatio str1 str2
  let scoreTSet := tokenSetRatio str1 str2
  let weightedSum :=
    scoreR * (0.2 : ℚ) + scoreP * (0.2 : ℚ) + scoreTSort * (0.3 : ℚ) + scoreTSet * (0.3 : ℚ)
  let totalWeight : ℚ := 0.2 + 0.2 + 0.3 + 0.3
  if totalWeight > 0 then weightedSum / totalWeight else 0

/-- The abbreviation table of `handleSpecialCases` (lines 224–236). -/
def abbreviationPairs : List (String × String) :=
  [("intl", "international"), ("corp", "corporation"), ("inc", "incorporated"),
   ("ltd", "limited"), ("co", "company"), ("assoc", "associates"),
   ("mgmt", "management"), ("svcs", "services"), ("tech", "technologies"),
   ("pharm", "pharmaceutical"), ("mfg", "manufacturing")]

/-- JS `String.prototype.includes` (substring containment). -/
def containsSub (needle hay : String) : Bool :=
  (hay.data.tails).any (fun t => needle.data.isPrefixOf t)

/-- `handleSpecialCases` (lines 219–247): the fixed abbreviation bonus 0.1
when some abbreviation/expansion pair occurs across the two strings. -/
def handleSpecialCases (str1 str2 : String) : ℚ :=
  let s1 := lowerTrim str1
  let s2 := lowerTrim str2
  if abbreviationPairs.any (fun p =>
      (containsSub p.1 s1 && containsSub p.2 s2) ||
      (containsSub p.2 s1 && containsSub p.1 s2)) then
    0.1
  else 0

/-- `enhancedCompanyRatio` (lines 250–255). -/
def enhancedCompanyRatio (str1 str2 : String) : ℚ :=
  min 1 (companyNameRatio str1 str2 + handleSpecialCases str1 str2)

end FuzzyMatcher

namespace FuzzyMatcher

/-! ### Bounds for the similarity primitives -/

theorem levenshteinDistance_le (xs ys : List Char) :
    levenshteinDistance xs ys ≤ max xs.length ys.length := by
  induction xs, ys using levenshteinDistance.induct with
  | case1 ys => simp [levenshteinDistance]
  | case2 x xs => simp [levenshteinDistance]
  | case3 xs y ys ih =>
    rw [levenshteinDistance, if_pos rfl]
    simp only [List.length_cons]
    omega
  | case4 x xs y ys h ih1 ih2 ih3 =>
    rw [levenshteinDistance, if_neg h]
    simp only [List.length_cons] at *
    omega

theorem ratio_bounds (s1 s2 : String) : 0 ≤ ratio s1 s2 ∧ ratio s1 s2 ≤ 1 := by
  unfold ratio
  dsimp only []
  split_ifs with h1 h2 h3 h4
  · norm_num
  · norm_num
  · norm_num
  · norm_num
  · set t1 := lowerTrim s1 with ht1
    set t2 := lowerTrim s2 with ht2
    have hlen1 : t1.length = t1.data.length := rfl
    have hlen2 : t2.length = t2.data.length := rfl
    have hmax : (0 : ℚ) < (max t1.length t2.length : ℚ) := by
      have : 0 < max t1.length t2.length := Nat.pos_of_ne_zero h4
      exact_mod_cast this
    have hd : levenshteinDistance t1.data t2.data ≤ max t1.length t2.length :=
      levenshteinDistance_le t1.data t2.data
    have hdq : (levenshteinDistance t1.data t2.data : ℚ) ≤ (max t1.length t2.length : ℚ) := by
      exact_mod_cast hd
    have hdiv1 : (levenshteinDistance t1.data t2.data : ℚ) / (max t1.length t2.length : ℚ) ≤ 1 :=
      (div_le_one hmax).mpr hdq
    have hdiv0 : 0 ≤ (levenshteinDistance t1.data t2.data : ℚ) / (max t1.length t2.length : ℚ) := by
      positivity
    rw [Nat.cast_max]
    constructor <;> linarith

theorem foldl_max_bounds (f : ℕ → ℚ) (hf : ∀ i, 0 ≤ f i ∧ f i ≤ 1) :
    ∀ (l : List ℕ) (acc : ℚ), 0 ≤ acc → acc ≤ 1 →
      0 ≤ l.foldl (fun b i => max b (f i)) acc ∧ l.foldl (fun b i => max b (f i)) acc ≤ 1 := by
  intro l
  induction l with
  | nil => intro acc h0 h1; simpa using ⟨h0, h1⟩
  | cons x xs ih =>
    intro acc h0 h1
    exact ih (max acc (f x)) (le_max_of_le_left h0) (max_le h1 (hf x).2)

theorem bestWindowRatio_bounds (s1 s2 : String) :
    0 ≤ bestWindowRatio s1 s2 ∧ bestWindowRatio s1 s2 ≤ 1 := by
  unfold bestWindowRatio
  dsimp only []
  split_ifs with h1 h2 h3
  · norm_num
  · norm_num
  · exact foldl_max_bounds
      (fun i => ratio (lowerTrim s1)
        (String.mk (((lowerTrim s2).data.drop i).take (lowerTrim s1).length)))
      (fun i => ratio_bounds _ _) _ 0 le_rfl (by norm_num)
  · exact foldl_max_bounds
      (fun i => ratio (lowerTrim s2)
        (String.mk (((lowerTrim s1).data.drop i).take (lowerTrim s2).length)))
      (fun i => ratio_bounds _ _) _ 0 le_rfl (by norm_num)

theorem tokenSortRatio_bounds (s1 s2 : String) :
    0 ≤ tokenSortRatio s1 s2 ∧ tokenSortRatio s1 s2 ≤ 1 := by
  unfold tokenSortRatio
  dsimp only []
  split_ifs with h1
  · norm_num
  · exact ratio_bounds _ _

theorem dedupGo_length_mono (xs ys : List String) :
    ∀ seen, (dedupGo seen xs).length ≤ (dedupGo seen (xs ++ ys)).length := by
  induction xs with
  | nil =>
    intro seen
    simp [dedupGo]
  | cons x xs ih =>
    intro seen
    simp only [List.cons_append, dedupGo]
    split_ifs with hmem
    · exact ih seen
    · simpa using ih (x :: seen)

theorem dedupGo_eq_of_nodup (l : List String) :
    ∀ seen, l.Nodup → (∀ x ∈ l, x ∉ seen) → dedupGo seen l = l := by
  induction l with
  | nil => intro seen _ _; rfl
  | cons x xs ih =>
    intro seen hnd hseen
    have hx : x ∉ seen := hseen x (by simp)
    rw [dedupGo, if_neg hx]
    congr 1
    refine ih (x :: seen) hnd.of_cons ?_
    intro y hy
    simp only [List.mem_cons, not_or]
    exact ⟨fun hxy => (List.nodup_cons.mp hnd).1 (hxy ▸ hy), hseen y (List.mem_cons_of_mem _ hy)⟩

theorem dedupGo_nodup (l : List String) :
    ∀ seen, (dedupGo seen l).Nodup ∧ ∀ x ∈ dedupGo seen l, x ∉ seen := by
  induction l with
  | nil => intro seen; simp [dedupGo]
  | cons x xs ih =>
    intro seen
    rw [dedupGo]
    split_ifs with hmem
    · exact ⟨(ih seen).1, (ih seen).2⟩
    · refine ⟨List.nodup_cons.mpr ⟨fun hx => ?_, (ih (x :: seen)).1⟩, ?_⟩
      · exact (ih (x :: seen)).2 x hx (by simp)
      · intro y hy
        rcases List.mem_cons.mp hy with rfl | hy2
        · exact hmem
        · have := (ih (x :: seen)).2 y hy2
          simp only [List.mem_cons, not_or] at this
          exact this.2

theorem dedupFirst_nodup (l : List String) : (dedupFirst l).Nodup :=
  (dedupGo_nodup l []).1

theorem length_le_dedupFirst_append (xs ys : List String) (hnd : xs.Nodup) :
    xs.length ≤ (dedupFirst (xs ++ ys)).length := by
  have h1 : dedupGo [] xs = xs :=
    dedupGo_eq_of_nodup xs [] hnd (by intro x _; simp)
  have h2 := dedupGo_length_mono xs ys []
  rw [h1] at h2
  exact h2

theorem interUnion_bounds (a b : List String) (hnd : a.Nodup)
    (hne : (dedupFirst (a ++ b)).length ≠ 0) :
    0 ≤ ((a.filter (fun t => t ∈ b)).length : ℚ) / ((dedupFirst (a ++ b)).length : ℚ) ∧
      ((a.filter (fun t => t ∈ b)).length : ℚ) / ((dedupFirst (a ++ b)).length : ℚ) ≤ 1 := by
  have hinter : (a.filter (fun t => t ∈ b)).length ≤ a.length := List.length_filter_le _ _
  have hunion : a.length ≤ (dedupFirst (a ++ b)).length := length_le_dedupFirst_append a b hnd
  have hpos : (0 : ℚ) < ((dedupFirst (a ++ b)).length : ℚ) := by
    have : 0 < (dedupFirst (a ++ b)).length := Nat.pos_of_ne_zero hne
    exact_mod_cast this
  constructor
  · positivity
  · apply (div_le_one hpos).mpr
    exact_mod_cast le_trans hinter hunion

theorem tokenSetRatio_bounds (s1 s2 : String) :
    0 ≤ tokenSetRatio s1 s2 ∧ tokenSetRatio s1 s2 ≤ 1 := by
  unfold tokenSetRatio
  dsimp only []
  split_ifs
  all_goals
    first
      | exact ⟨le_refl 0, zero_le_one⟩
      | exact ⟨zero_le_one, le_refl 1⟩
      | (refine interUnion_bounds _ _ ?_ (by assumption);
          first
            | exact List.Nodup.filter _ (dedupFirst_nodup _)
            | exact dedupFirst_nodup _)

theorem companyNameRatio_bounds (s1 s2 : String) :
    0 ≤ companyNameRatio s1 s2 ∧ companyNameRatio s1 s2 ≤ 1 := by
  have hr := ratio_bounds s1 s2
  have hp := bestWindowRatio_bounds s1 s2
  have hts := tokenSortRatio_bounds s1 s2
  have htt := tokenSetRatio_bounds s1 s2
  unfold companyNameRatio
  norm_num
  constructor <;> linarith [hr.1, hr.2, hp.1, hp.2, hts.1, hts.2, htt.1, htt.2]

theorem handleSpecialCases_nonneg (s1 s2 : String) : 0 ≤ handleSpecialCases s1 s2 := by
  unfold handleSpecialCases
  dsimp only []
  split_ifs <;> norm_num

end FuzzyMatcher

/-- **C7.** For every pair of strings, `companyNameRatio` and
`enhancedCompanyRatio` lie in `[0,1]`, and the enhanced variant (base score
plus the non-negative fixed abbreviation bonus, clamped to 1) is at least
the base `companyNameRatio`. -/
theorem companyNameRatio_enhancedCompanyRatio_bounds (s1 s2 : String) :
    0 ≤ FuzzyMatcher.companyNameRatio s1 s2 ∧ FuzzyMatcher.companyNameRatio s1 s2 ≤ 1 ∧
    0 ≤ FuzzyMatcher.enhancedCompanyRatio s1 s2 ∧ FuzzyMatcher.enhancedCompanyRatio s1 s2 ≤ 1 ∧
    FuzzyMatcher.companyNameRatio s1 s2 ≤ FuzzyMatcher.enhancedCompanyRatio s1 s2 := by
  have hb := FuzzyMatcher.companyNameRatio_bounds s1 s2
  have hs := FuzzyMatcher.handleSpecialCases_nonneg s1 s2
  refine ⟨hb.1, hb.2, ?_, ?_, ?_⟩
  · exact le_min (by norm_num) (by linarith)
  · exact min_le_left _ _
  · exact le_min hb.2 (by linarith)

/-! ## CompanyNormalizer — second class of `fuzzy-matcher.js` -/

namespace CompanyNormalizer

/-- US suffixes (`this.suffixes.us`). -/
def suffixesUS : List String :=
  ["Inc", "Inc.", "Incorporated",
   "Corp", "Corp.", "Corporation",
   "Co", "Co.", "Company",
   "LLC", "L.L.C.", "Limited Liability Company",
   "LP", "L.P.", "Limited Partnership",
   "LLP", "L.L.P.", "Limited Liability Partnership",
   "Ltd", "Ltd.", "Limited",
   "PC", "P.C.", "Professional Corporation",
   "PA", "P.A.", "Professional Association",
   "PLLC", "P.L.L.C.", "Professional Limited Liability Company"]

/-- UK suffixes (`this.suffixes.uk`). -/
def suffixesUK : List String :=
  ["Ltd", "Ltd.", "Limited",
   "PLC", "P.L.C.", "Public Limited Company",
   "LLP", "L.L.P.", "Limited Liability Partnership"]

/-- European suffixes (`this.suffixes.europe`). -/
def suffixesEurope : List String :=
  ["AG", "A.G.", "Aktiengesellschaft",
   "GmbH", "G.m.b.H.", "Gesellschaft mit beschränkter Haftung",
   "SA", "S.A.", "Société Anonyme",
   "SARL", "S.A.R.L.", "Société à responsabilité limitée",
   "BV", "B.V.", "Besloten Vennootschap",
   "NV", "N.V.", "Naamloze Vennootschap",
   "SpA", "S.p.A.", "Società per Azioni",
   "AB", "A.B.", "Aktiebolag",
   "AS", "A.S.", "Aksjeselskap",
   "Oy", "Oyj"]

/-- Asian suffixes (`this.suffixes.asia`). -/
def suffixesAsia : List String :=
  ["KK", "K.K.", "Kabushiki Kaisha", "株式会社",
   "YK", "Y.K.", "Yugen Kaisha", "有限会社",
   "Pte Ltd", "Pte. Ltd.", "Private Limited",
   "Sdn Bhd", "Sdn. Bhd.", "Sendirian Berhad",
   "Co., Ltd.",
   "有限公司", "股份有限公司"]

/-- Other common terms (`this.suffixes.other`). -/
def suffixesOther : List String :=
  ["Group", "Groups",
   "Holdings", "Holding",
   "International", "Intl", "Intl.",
   "Global",
   "Worldwide",
   "Partners",
   "Associates",
   "Enterprises",
   "Ventures",
   "Technologies", "Tech",
   "Solutions",
   "Services",
   "Systems",
   "Industries"]

/-- `buildPatterns` concatenation order (us, uk, europe, asia, other). -/
def allSuffixes : List String :=
  suffixesUS ++ suffixesUK ++ suffixesEurope ++ suffixesAsia ++ suffixesOther

/-- Stable insertion by length, descending (later elements of equal length go
after earlier ones), mirroring V8's stable `sort((a, b) => b.length - a.length)`. -/
def insertByLen (x : String) : List String → List String
  | [] => [x]
  | y :: ys => if x.length ≤ y.length then y :: insertByLen x ys else x :: y :: ys

/-- `sortedSuffixes`: the suffix alternatives longest-first, in the order the
regex alternation tries them. -/
def sortedSuffixes : List (List Char) :=
  (allSuffixes.foldl (fun acc x => insertByLen x acc) []).map String.data

/-- Case-insensitive literal match of `w` against the head of `cs`
(regex `i` flag; ASCII canonicalization, which is exact for the table and the
inputs considered). -/
def ciPrefixAt : List Char → List Char → Bool
  | [], _ => true
  | _ :: _, [] => false
  | a :: as, c :: cs => (Char.toLower a = Char.toLower c) && ciPrefixAt as cs

/-- Try the alternation `(s₁|s₂|…)` at the current position: first alternative
that matches literally (case-insensitively) and is followed by a `\b` word
boundary wins.  Returns the match length and whether its last character is a
word character (needed to continue the scan).  The leading `\b` is checked by
the caller; the table contains no empty alternative. -/
def findSuffixAt : List (List Char) → List Char → Option (Nat × Bool)
  | [], _ => none
  | a :: rest, cs =>
    match a with
    | [] => findSuffixAt rest cs
    | _ :: _ =>
      if ciPrefixAt a cs then
        let taken := cs.take a.length
        let lastW := match taken.getLast? with
          | some c => isWordChar c
          | none => false
        let nextW := match cs.drop a.length with
          | c :: _ => isWordChar c
          | [] => false
        if lastW != nextW then some (a.length, lastW) else findSuffixAt rest cs
      else findSuffixAt rest cs

/-- The global replace `str.replace(suffixPattern, '')` for the pattern
`\b(alt₁|alt₂|…)\b` with flags `gi`: scan left to right; at each position
where a word boundary holds try the alternatives in order; on a match, emit
nothing and resume after the match (RegExp `lastIndex` semantics); otherwise
emit the character.  `prevW` records whether the previous character of the
original string was a word character; the fuel argument (initially the input
length) only serves termination, every step consumes at least one character. -/
def stripGo (alts : List (List Char)) : Nat → Bool → List Char → List Char
  | _, _, [] => []
  | 0, _, _ :: _ => []
  | fuel + 1, prevW, c :: rest =>
    if prevW != isWordChar c then
      match findSuffixAt alts (c :: rest) with
      | some (n, lastW) => stripGo alts fuel lastW ((c :: rest).drop n)
      | none => c :: stripGo alts fuel (isWordChar c) rest
    else c :: stripGo alts fuel (isWordChar c) rest

/-- `normalized.replace(this.suffixPattern, '')`. -/
def stripSuffixes (cs : List Char) : List Char :=
  stripGo sortedSuffixes cs.length false cs

/-- `normalized.replace(this.punctuationPattern, '')` with `/[,;]/g`. -/
def removePunct (cs : List Char) : List Char :=
  cs.filter (fun c => ¬ (c = ',' ∨ c = ';'))

/-- `normalized.replace(this.cleanPattern, ' ')` with `/\s+/g`: every maximal
whitespace run becomes a single space.  The fuel argument (initially the input
length) only serves structural termination; every step consumes at least one
character. -/
def collapseGo : Nat → List Char → List Char
  | _, [] => []
  | 0, _ :: _ => []
  | fuel + 1, c :: rest =>
    if isJsWs c then ' ' :: collapseGo fuel (rest.dropWhile isJsWs)
    else c :: collapseGo fuel rest

/-- See `collapseGo`. -/
def collapseWs (cs : List Char) : List Char := collapseGo cs.length cs

/-- The pre-abbreviation stage of `normalize` (lines 401–413): remove commas
and semicolons, strip suffixes, collapse whitespace, trim. -/
def cleanupName (s : String) : String :=
  String.mk (trimL (collapseWs (stripSuffixes (removePunct s.data))))

/-- `this.abbreviations` (lines 336–352). -/
def abbreviations : List (String × String) :=
  [("IBM", "International Business Machines"),
   ("GM", "General Motors"),
   ("GE", "General Electric"),
   ("P&G", "Procter & Gamble"),
   ("J&J", "Johnson & Johnson"),
   ("AT&T", "American Telephone & Telegraph"),
   ("UPS", "United Parcel Service"),
   ("FedEx", "Federal Express"),
   ("BMW", "Bayerische Motoren Werke"),
   ("HSBC", "Hongkong and Shanghai Banking Corporation"),
   ("KPMG", "Klynveld Peat Marwick Goerdeler"),
   ("PwC", "PricewaterhouseCoopers"),
   ("EY", "Ernst & Young"),
   ("CVS", "Consumer Value Stores"),
   ("IKEA", "Ingvar Kamprad Elmtaryd Agunnaryd")]

/-- The abbreviation-expansion step (lines 415–420): return the expansion of
the first abbreviation whose lowercased key equals the lowercased stripped
name. -/
def findAbbrev (lowerNormalized : String) : Option String :=
  (abbreviations.find? (fun p => toLowerStr p.1 = lowerNormalized)).map (fun p => p.2)

/-- `normalize` (lines 396–423).  The guard `!companyName` is the JS falsiness
test, true exactly on the empty string (the argument is always a string
here). -/
def normalize (companyName : String) : String :=
  if companyName = "" then ""
  else
    let normalized := cleanupName companyName
    match findAbbrev (toLowerStr normalized) with
    | some full => full
    | none => normalized

end CompanyNormalizer

/-- **C1 (counterexample).** `normalize` is not idempotent: `normalize "IBM"`
is the abbreviation expansion `"International Business Machines"`, and a
second `normalize` strips its leading word (a listed suffix term), giving
`"Business Machines"`. -/
theorem normalize_not_idempotent_on_IBM :
    CompanyNormalizer.normalize (CompanyNormalizer.normalize "IBM") ≠
      CompanyNormalizer.normalize "IBM" := by
  decide

/-- **C1 (amended).** `normalize` is idempotent exactly on those inputs whose
normal form is inert under a second pass: if the punctuation/suffix/whitespace
cleanup stage leaves `normalize s` unchanged and the abbreviation lookup does
not fire on it, then `normalize (normalize s) = normalize s`.  (The
counterexamples `"IBM"` — where the abbreviation expansion reintroduces a
strippable suffix word — and `"S.Inc.A.x"` — where removing a dotted suffix
splices a fresh suffix occurrence — show that both hypotheses are needed.) -/
theorem normalize_idempotent_of_inert (s : String)
    (h1 : CompanyNormalizer.cleanupName (CompanyNormalizer.normalize s) =
      CompanyNormalizer.normalize s)
    (h2 : CompanyNormalizer.findAbbrev (toLowerStr (CompanyNormalizer.normalize s)) = none) :
    CompanyNormalizer.normalize (CompanyNormalizer.normalize s) =
      CompanyNormalizer.normalize s := by
  by_cases hz : CompanyNormalizer.normalize s = ""
  · rw [hz]; rfl
  · rw [CompanyNormalizer.normalize, if_neg hz]
    dsimp only []
    rw [h1, h2]

/-- **C1 (witness).** The amended idempotence applies to `"Apple Inc"`:
its normal form `"Apple"` is inert under a second pass. -/
theorem normalize_idempotent_of_inert_witness :
    CompanyNormalizer.cleanupName (CompanyNormalizer.normalize "Apple Inc") =
        CompanyNormalizer.normalize "Apple Inc" ∧
      CompanyNormalizer.findAbbrev (toLowerStr (CompanyNormalizer.normalize "Apple Inc")) =
        none ∧
      CompanyNormalizer.normalize (CompanyNormalizer.normalize "Apple Inc") =
        CompanyNormalizer.normalize "Apple Inc" :=
  ⟨by decide, by decide,
    normalize_idempotent_of_inert "Apple Inc" (by decide) (by decide)⟩

/-! ## Association-list model of JS `Map` (shared infrastructure)

JS `Map` iterates in insertion order; `set` on an existing key keeps its
position, `delete` removes the entry.  An association list in insertion order
models this exactly. -/

/-- `Map.prototype.get`. -/
def getAssoc {α : Type} (k : String) : List (String × α) → Option α
  | [] => none
  | (k', v) :: t => if k' = k then some v else getAssoc k t

/-- `Map.prototype.set`. -/
def setAssoc {α : Type} (k : String) (v : α) : List (String × α) → List (String × α)
  | [] => [(k, v)]
  | (k', v') :: t => if k' = k then (k, v) :: t else (k', v') :: setAssoc k v t

/-! ## SecureNLPProcessor — `nlp-processor.js` -/

namespace SecureNLPProcessor

/-- `this.maxProcessingTime` (constructor, line 7). -/
def maxProcessingTime : Nat := 50

/-- `this.maxInputLength` (line 8). -/
def maxInputLength : Nat := 1000

/-- `this.maxEntities` (line 9). -/
def maxEntities : Nat := 20

/-- `this.cacheTimeout` (line 28): five minutes in milliseconds. -/
def cacheTimeout : Nat := 300000

/-- JS control characters removed by `sanitizeInput`:
`/[\x00-\x1F\x7F-\x9F]/g`. -/
def isCtrlChar (c : Char) : Bool :=
  (c.toNat ≤ 0x1F) || (0x7F ≤ c.toNat && c.toNat ≤ 0x9F)

/-- `sanitizeInput` (lines 148–162): truncate to `maxInputLength`, drop
`<`/`>`, drop control characters, collapse whitespace, trim.  (The JS
function returns `null` on a non-string argument; the model's argument is
always a string.) -/
def sanitizeInput (text : String) : String :=
  let t := if text.length > maxInputLength then String.mk (text.data.take maxInputLength) else text
  let noHtml := t.data.filter (fun c => ¬ (c = '<' ∨ c = '>'))
  let noCtrl := noHtml.filter (fun c => ¬ isCtrlChar c = true)
  String.mk (trimL (CompanyNormalizer.collapseWs noCtrl))

/-- JS `ToInt32` (the effect of `hash & hash` and `<< 5` on a JS number). -/
def toInt32 (z : Int) : Int := (z + 2 ^ 31) % 2 ^ 32 - 2 ^ 31

/-- `generateCacheKey` (lines 365–374): the 31-multiplier hash over the first
`min(length, 100)` characters, then `"nlp_" + Math.abs(hash)`.
`(hash << 5) - hash + char` coerces through `ToInt32` exactly as `toInt32`
below; `charCodeAt` is the code point for the BMP text handled here. -/
def generateCacheKey (text : String) : String :=
  let h := (text.data.take 100).foldl
    (fun hash c => toInt32 (toInt32 (hash * 32) - hash + (c.toNat : Int))) 0
  "nlp_" ++ toString h.natAbs

/-- A candidate entity as pushed by the extraction loop
(`performEntityExtraction`, lines 199–206). -/
structure NLPEnt where
  text : String
  normalized : String
  type : String
  confidence : ℚ
  pattern : String
  position : Nat
deriving DecidableEq

/-- A resolved entity: an extraction entity plus the mutable `references`
list attached by `resolveCoreferences`. -/
structure RankedEnt extends NLPEnt where
  references : List NLPEnt
deriving DecidableEq

/-- The value returned by `extractEntities`/`validateAndRankEntities`.
`processingTime` is present on the success path only; `error` on the
catch path only. -/
structure ExtractionResult where
  entities : List RankedEnt
  confidence : ℚ
  processingTime : Option Nat
  error : Option String
deriving DecidableEq

/-- An entry of `this.entityCache`. -/
structure CacheEntry where
  data : ExtractionResult
  timestamp : Nat
deriving DecidableEq

/-- `checkCache` (lines 376–386): return fresh data; delete a present but
expired entry (lazy eviction); `now` is the `Date.now()` reading. -/
def checkCache (key : String) (now : Nat) (cache : List (String × CacheEntry)) :
    Option ExtractionResult × List (String × CacheEntry) :=
  match getAssoc key cache with
  | some e =>
    if now - e.timestamp < cacheTimeout then (some e.data, cache)
    else (none, cache.eraseP (fun p => p.1 == key))
  | none => (none, cache)

/-- `cacheResults` (lines 388–400): when the map already has more than 1000
entries, delete the first (oldest-inserted) key, then insert. -/
def cacheResults (key : String) (results : ExtractionResult) (now : Nat)
    (cache : List (String × CacheEntry)) : List (String × CacheEntry) :=
  let cache1 := if cache.length > 1000 then cache.tail else cache
  setAssoc key ⟨results, now⟩ cache1

/-! ### The coreference regexes of `findCoreference` (lines 313–316)

`/\b(?:the\s+company|the\s+firm|it|they|them)\b/gi` and
`/\b(?:this|that|these|those)\s+(?:company|firm|business)\b/gi`.
A tiny matcher for this pattern shape (alternation of literal/whitespace-run
sequences between word boundaries, case-insensitive) embeds `.test`. -/

/-- One token of such a pattern: a literal, or `\s+`. -/
inductive RTok where
  | lit (w : List Char)
  | wsp

/-- Match a (nonempty) literal case-insensitively; return its last matched
character and the rest of the input. -/
def litMatchCI (w : List Char) (cs : List Char) : Option (Char × List Char) :=
  if CompanyNormalizer.ciPrefixAt w cs ∧ w ≠ [] then
    match (cs.take w.length).getLast? with
    | some c => some (c, cs.drop w.length)
    | none => none
  else none

/-- Consume a maximal nonempty whitespace run (`\s+`, greedy; the following
token is always a letter literal, so greediness is exact). -/
def eatWs (c : Char) : List Char → Char × List Char
  | [] => (c, [])
  | x :: rest => if isJsWs x then eatWs x rest else (c, x :: rest)

/-- Match a token sequence at the head of the input; returns the last matched
character (for the trailing `\b`) and the rest. -/
def matchSeq : List RTok → Char → List Char → Option (Char × List Char)
  | [], lastC, cs => some (lastC, cs)
  | RTok.lit w :: rest, _, cs =>
    match litMatchCI w cs with
    | some (lc, cs') => matchSeq rest lc cs'
    | none => none
  | RTok.wsp :: rest, _, cs =>
    match cs with
    | x :: cs' =>
      if isJsWs x then
        let p := eatWs x cs'
        matchSeq rest p.1 p.2
      else none
    | [] => none

/-- Does some alternative match at this position, with its trailing `\b`? -/
def anyMatchAt (alts : List (List RTok)) (cs : List Char) : Bool :=
  alts.any (fun alt =>
    match matchSeq alt ' ' cs with
    | some (lc, rest) =>
      isWordChar lc != (match rest with | c :: _ => isWordChar c | [] => false)
    | none => false)

/-- `pattern.test(s)`: scan every position, checking the leading `\b` against
the previous character's word-ness. -/
def regexTestGo (alts : List (List RTok)) : Bool → List Char → Bool
  | _, [] => false
  | prevW, c :: rest =>
    ((prevW != isWordChar c) && anyMatchAt alts (c :: rest)) ||
      regexTestGo alts (isWordChar c) rest

/-- `pattern.test` on a string. -/
def regexTest (alts : List (List RTok)) (s : String) : Bool :=
  regexTestGo alts false s.data

/-- First pronoun pattern, alternatives in source order. -/
def pronounPat1 : List (List RTok) :=
  [[RTok.lit "the".data, RTok.wsp, RTok.lit "company".data],
   [RTok.lit "the".data, RTok.wsp, RTok.lit "firm".data],
   [RTok.lit "it".data], [RTok.lit "they".data], [RTok.lit "them".data]]

/-- Second pronoun pattern, flattened in backtracking order. -/
def pronounPat2 : List (List RTok) :=
  (["this", "that", "these", "those"].map (fun w1 =>
    ["company", "firm", "business"].map (fun w2 =>
      [RTok.lit w1.data, RTok.wsp, RTok.lit w2.data]))).flatten

/-- Replace the element at index `i`. -/
def updateAt {α : Type} (i : Nat) (f : α → α) : List α → List α
  | [] => []
  | x :: xs =>
    match i with
    | 0 => f x :: xs
    | i + 1 => x :: updateAt i f xs

/-- `findCoreference` (lines 311–339), as the index of the matched entity in
the resolved list.  The entity map iterates in insertion order and contains
exactly the resolved entities keyed by lowercased normalized text, so it is
the resolved list itself.  If a pronoun pattern matches the entity text, the
first previously resolved entity at an earlier text position is returned;
otherwise the first resolved entity whose key contains, or is contained in,
the entity's lowercased normalized text. -/
def findCorefIdx (e : NLPEnt) (resolved : List RankedEnt) : Option Nat :=
  let pron := regexTest pronounPat1 e.text || regexTest pronounPat2 e.text
  match (if pron then resolved.findIdx? (fun r => decide (r.position < e.position)) else none) with
  | some i => some i
  | none =>
    resolved.findIdx? (fun r =>
      let key := toLowerStr r.normalized
      let ln := toLowerStr e.normalized
      FuzzyMatcher.containsSub ln key || FuzzyMatcher.containsSub key ln)

/-- `resolveCoreferences` (lines 287–309): merge coreferent mentions into the
earlier entity's reference list, raising its confidence to the maximum. -/
def resolveCoreferences (entities : List NLPEnt) : List RankedEnt :=
  entities.foldl
    (fun resolved e =>
      match findCorefIdx e resolved with
      | some i =>
        updateAt i
          (fun r => { r with references := r.references ++ [e],
                             confidence := max r.confidence e.confidence }) resolved
      | none => resolved ++ [{ e with references := [] }])
    []

/-- Type weights of `calculateOverallConfidence` (lines 345–351), with the
`|| 0.5` default. -/
def overallWeight (t : String) : ℚ :=
  if t = "ticker" then 1.0
  else if t = "company" then 0.9
  else if t = "company_abbrev" then 0.8
  else if t = "company_intl" then 0.85
  else if t = "company_context" then 0.7
  else 0.5

/-- `calculateOverallConfidence` (lines 341–363). -/
def calculateOverallConfidence (entities : List RankedEnt) : ℚ :=
  if entities.length = 0 then 0
  else
    let acc := entities.foldl
      (fun (acc : ℚ × ℚ) e =>
        (acc.1 + e.confidence * overallWeight e.type, acc.2 + overallWeight e.type))
      (0, 0)
    if acc.2 > 0 then acc.1 / acc.2 else 0

/-- The base ranking comparator of `validateAndRankEntities` (lines 265–272):
confidence descending, then position ascending. -/
def cmpBase (a b : NLPEnt) : ℚ :=
  if a.confidence ≠ b.confidence then b.confidence - a.confidence
  else (a.position : ℚ) - (b.position : ℚ)

/-- `validateAndRankEntities` (lines 263–285).  `entities.sort` is V8's
stable sort under the comparator, which the stable `insertionSort` over the
induced total preorder reproduces; `tNow` is the `performance.now()` reading
stored in `processingTime`. -/
def validateAndRankEntities (entities : List NLPEnt) (_fullText : String) (tNow : Nat) :
    ExtractionResult :=
  let sorted := List.insertionSort (fun a b => cmpBase a b ≤ 0) entities
  let resolved := resolveCoreferences sorted
  let overall := calculateOverallConfidence resolved
  { entities := resolved.take maxEntities, confidence := overall,
    processingTime := some tNow, error := none }

/-- The settlement of one promise entering the race: the value it settles
with and the event-loop job index at which the settlement happens (job 0 is
the job currently executing). -/
structure Settling where
  value : Except String (List NLPEnt)
  jobIndex : Nat

/-- `Promise.race([p, q])` (line 215): the race adopts the value of whichever
input settles first; with equal indices the first listed wins, because `race`
subscribes to its inputs in array order. -/
def promiseRace (p q : Settling) : Except String (List NLPEnt) :=
  if p.jobIndex ≤ q.jobIndex then p.value else q.value

/-- `performEntityExtraction` (lines 164–216).  The `extractionPromise`
executor (lines 174–212) runs the whole pattern loop synchronously during
`new Promise(...)` construction and calls `resolve(entities)` before the
constructor returns — a settlement at job index 0, whatever wall-clock time
the loop consumed.  The `setTimeout` callback that rejects with
`Error('NLP processing timeout')` (lines 169–171) is a macrotask, dispatched
at some strictly later job; the model quantifies over its job index
`timerJob` (every real schedule has `timerJob ≥ 1`, and the race's outcome
is the same even at 0).  The loop's collected entities are a parameter (the
regex pattern tables are not embedded; the claims about this function
quantify over the loop's output). -/
def performEntityExtraction (collected : List NLPEnt) (timerJob : Nat) :
    Except String (List NLPEnt) :=
  promiseRace ⟨Except.ok collected, 0⟩
    ⟨Except.error "NLP processing timeout", timerJob⟩

/-- `extractEntities` (lines 112–146): sanitize, consult the cache, run the
extraction race, rank, write through the cache.  A thrown error would be
caught (lines 142–145) and surfaced as `{entities: [], confidence: 0,
error}` with no cache write — the branch is kept as the source writes it,
reachable or not.  `collected`/`timerJob` parametrize the extraction stage
as in `performEntityExtraction`; `now` is the clock reading of this call. -/
def extractEntities (text : String) (collected : List NLPEnt) (timerJob now : Nat)
    (cache : List (String × CacheEntry)) :
    ExtractionResult × List (String × CacheEntry) :=
  let sanitized := sanitizeInput text
  if sanitized = "" then
    ({ entities := [], confidence := 0, processingTime := none, error := none }, cache)
  else
    let key := generateCacheKey sanitized
    match checkCache key now cache with
    | (some data, cache1) => (data, cache1)
    | (none, cache1) =>
      match performEntityExtraction collected timerJob with
      | Except.error msg =>
        ({ entities := [], confidence := 0, processingTime := none, error := some msg }, cache1)
      | Except.ok entities =>
        let validated := validateAndRankEntities entities sanitized now
        (validated, cacheResults key validated now cache1)

end SecureNLPProcessor

namespace SecureNLPProcessor

theorem getAssoc_setAssoc_self {α : Type} (k : String) (v : α) (l : List (String × α)) :
    getAssoc k (setAssoc k v l) = some v := by
  induction l with
  | nil => simp [getAssoc, setAssoc]
  | cons p t ih =>
    rcases p with ⟨k', v'⟩
    by_cases hk : k' = k
    · simp [setAssoc, getAssoc, hk]
    · simp only [setAssoc, getAssoc, if_neg hk]
      exact ih

theorem getAssoc_none_of_not_mem {α : Type} (k : String) (l : List (String × α))
    (h : ¬ k ∈ l.map Prod.fst) : getAssoc k l = none := by
  induction l with
  | nil => rfl
  | cons p t ih =>
    rcases p with ⟨k', v'⟩
    simp only [List.map_cons, List.mem_cons, not_or] at h
    have hne : ¬ k' = k := fun hk => h.1 hk.symm
    simp only [getAssoc, if_neg hne]
    exact ih h.2

theorem getAssoc_eraseP_self (k : String) (l : List (String × CacheEntry))
    (hnd : (l.map Prod.fst).Nodup) :
    getAssoc k (l.eraseP (fun p => p.1 == k)) = none := by
  induction l with
  | nil => rfl
  | cons p t ih =>
    rcases p with ⟨k', v'⟩
    simp only [List.map_cons, List.nodup_cons] at hnd
    by_cases hk : k' = k
    · subst hk
      simp only [List.eraseP_cons, beq_self_eq_true, cond_true]
      exact getAssoc_none_of_not_mem k' t hnd.1
    · have hbeq : ((k', v').1 == k) = false := by simp [hk]
      simp only [List.eraseP_cons, hbeq, cond_false]
      simp only [getAssoc, if_neg hk]
      exact ih hnd.2

theorem chainTs_head_min (k0 : String) (e0 : CacheEntry) :
    ∀ (rest : List (String × CacheEntry)),
      List.Chain' (fun a b => a.2.timestamp ≤ b.2.timestamp) ((k0, e0) :: rest) →
      ∀ p ∈ (k0, e0) :: rest, e0.timestamp ≤ p.2.timestamp := by
  intro rest
  induction rest generalizing k0 e0 with
  | nil =>
    intro _ p hp
    rcases List.mem_singleton.mp hp with rfl
    exact le_refl _
  | cons q rest' ih =>
    intro hch p hp
    rcases q with ⟨k1, e1⟩
    have h01 : e0.timestamp ≤ e1.timestamp := (List.chain'_cons.mp hch).1
    have hch1 : List.Chain' (fun a b => a.2.timestamp ≤ b.2.timestamp) ((k1, e1) :: rest') :=
      (List.chain'_cons.mp hch).2
    rcases List.mem_cons.mp hp with rfl | hp1
    · exact le_refl _
    · exact le_trans h01 (ih k1 e1 hch1 p hp1)

/-- The extraction promise is already fulfilled at job 0 when the race runs,
so the race adopts it whatever job the timer fires at: the timeout rejection
is unreachable. -/
theorem performEntityExtraction_ok (collected : List NLPEnt) (timerJob : Nat) :
    performEntityExtraction collected timerJob = Except.ok collected := by
  simp [performEntityExtraction, promiseRace, Nat.zero_le]

end SecureNLPProcessor

open SecureNLPProcessor in
/-- **C2.** The 50 ms timeout is never surfaced: the extraction executor
resolves synchronously (job 0) with the collected entities before the timer
macrotask can run, so the race adopts them at every timer job index and the
catch's empty error result is unreachable.  Whenever the call is not
answered from the cache, `extractEntities` returns — never throws — the
ranked collected entities with no `error` field, however long the pattern
loop ran. -/
theorem extractEntities_returns_collected_never_times_out :
    (∀ (collected : List NLPEnt) (timerJob : Nat),
        performEntityExtraction collected timerJob = Except.ok collected) ∧
    (∀ (text : String) (collected : List NLPEnt) (timerJob now : Nat)
        (cache : List (String × CacheEntry)),
        sanitizeInput text ≠ "" →
        (checkCache (generateCacheKey (sanitizeInput text)) now cache).1 = none →
        (extractEntities text collected timerJob now cache).1 =
          validateAndRankEntities collected (sanitizeInput text) now ∧
        (extractEntities text collected timerJob now cache).1.error = none) := by
  refine ⟨performEntityExtraction_ok, ?_⟩
  intro text collected timerJob now cache hsan hmiss
  have h1 : extractEntities text collected timerJob now cache =
      (validateAndRankEntities collected (sanitizeInput text) now,
        cacheResults (generateCacheKey (sanitizeInput text))
          (validateAndRankEntities collected (sanitizeInput text) now) now
          (checkCache (generateCacheKey (sanitizeInput text)) now cache).2) := by
    unfold extractEntities
    rw [if_neg hsan]
    dsimp only []
    rcases hck : checkCache (generateCacheKey (sanitizeInput text)) now cache with ⟨fst, cache1⟩
    rw [hck] at hmiss
    simp only at hmiss
    subst hmiss
    rw [performEntityExtraction_ok]
  rw [h1]
  exact ⟨rfl, rfl⟩

/-- **C2 (witness).** A concrete uncached call with one collected entity and
the timer scheduled at a far job index: the result is the ranked collected
list with no error. -/
theorem extractEntities_returns_collected_never_times_out_witness :
    (SecureNLPProcessor.extractEntities "BlackRock Inc manages assets"
        [⟨"BlackRock Inc", "BlackRock Inc", "company", 0.9, "company_formal", 0⟩]
        999 0 []).1 =
      SecureNLPProcessor.validateAndRankEntities
        [⟨"BlackRock Inc", "BlackRock Inc", "company", 0.9, "company_formal", 0⟩]
        (SecureNLPProcessor.sanitizeInput "BlackRock Inc manages assets") 0 ∧
    (SecureNLPProcessor.extractEntities "BlackRock Inc manages assets"
        [⟨"BlackRock Inc", "BlackRock Inc", "company", 0.9, "company_formal", 0⟩]
        999 0 []).1.error = none :=
  extractEntities_returns_collected_never_times_out.2
    "BlackRock Inc manages assets"
    [⟨"BlackRock Inc", "BlackRock Inc", "company", 0.9, "company_formal", 0⟩]
    999 0 [] (by decide) (by decide)

open SecureNLPProcessor in
/-- **C5.** The extraction result cache never serves a stale entry, and its
eviction policy is as specified: (1) a read of an entry whose age exceeds the
5-minute TTL returns nothing; (2) such an entry is deleted by the read itself
(lazy eviction; the key-uniqueness hypothesis is the `Map` invariant);
(3) a write to a cache holding more than 1000 entries first evicts the
first-inserted entry, which — timestamps being nondecreasing in insertion
order, as sequential writes produce — is the oldest one. -/
theorem entityCache_ttl_and_capacity :
    (∀ (key : String) (now : Nat) (cache : List (String × CacheEntry)) (e : CacheEntry),
        getAssoc key cache = some e → cacheTimeout < now - e.timestamp →
        (checkCache key now cache).1 = none) ∧
    (∀ (key : String) (now : Nat) (cache : List (String × CacheEntry)) (e : CacheEntry),
        (cache.map Prod.fst).Nodup →
        getAssoc key cache = some e → cacheTimeout < now - e.timestamp →
        getAssoc key (checkCache key now cache).2 = none) ∧
    (∀ (key : String) (res : ExtractionResult) (now : Nat) (k0 : String) (e0 : CacheEntry)
        (rest : List (String × CacheEntry)),
        1000 < ((k0, e0) :: rest).length →
        List.Chain' (fun a b => a.2.timestamp ≤ b.2.timestamp) ((k0, e0) :: rest) →
        cacheResults key res now ((k0, e0) :: rest) = setAssoc key ⟨res, now⟩ rest ∧
        ∀ p ∈ (k0, e0) :: rest, e0.timestamp ≤ p.2.timestamp) := by
  refine ⟨?_, ?_, ?_⟩
  · intro key now cache e hget hold
    unfold checkCache
    rw [hget]
    dsimp only []
    rw [if_neg (by omega)]
  · intro key now cache e hnd hget hold
    unfold checkCache
    rw [hget]
    dsimp only []
    rw [if_neg (by omega)]
    exact getAssoc_eraseP_self key cache hnd
  · intro key res now k0 e0 rest hlen hch
    constructor
    · unfold cacheResults
      rw [if_pos (by simpa using hlen)]
      rfl
    · exact chainTs_head_min k0 e0 rest hch


/-- A fixed empty result used as concrete cache payload. -/
def emptyExtractionResult : SecureNLPProcessor.ExtractionResult :=
  { entities := [], confidence := 0, processingTime := none, error := none }

theorem chainTs_cons_replicate (x y : String × SecureNLPProcessor.CacheEntry)
    (hxy : x.2.timestamp ≤ y.2.timestamp) (hyy : y.2.timestamp ≤ y.2.timestamp) :
    ∀ n, List.Chain' (fun a b => a.2.timestamp ≤ b.2.timestamp) (x :: List.replicate n y) := by
  intro n
  induction n generalizing x with
  | zero => simp
  | succ m ih =>
    rw [List.replicate_succ]
    exact List.chain'_cons.mpr ⟨hxy, ih y hyy⟩

/-- A concrete 1001-entry cache with equal timestamps. -/
def bigCacheExample : List (String × SecureNLPProcessor.CacheEntry) :=
  ("a", ⟨emptyExtractionResult, 5⟩) :: List.replicate 1000 ("b", ⟨emptyExtractionResult, 5⟩)

set_option maxRecDepth 100000 in
open SecureNLPProcessor in
/-- **C5 (witness).** The three cache properties at concrete states: a stale
single-entry cache read at time 300001, and a capacity write on a concrete
1001-entry cache. -/
theorem entityCache_ttl_and_capacity_witness :
    (checkCache "k" 300001 [("k", ⟨emptyExtractionResult, 0⟩)]).1 = none ∧
    getAssoc "k" (checkCache "k" 300001 [("k", ⟨emptyExtractionResult, 0⟩)]).2 = none ∧
    (cacheResults "x" emptyExtractionResult 7 bigCacheExample =
        setAssoc "x" ⟨emptyExtractionResult, 7⟩ bigCacheExample.tail ∧
      ∀ p ∈ bigCacheExample, (5 : Nat) ≤ p.2.timestamp) := by
  refine ⟨?_, ?_, ?_⟩
  · exact entityCache_ttl_and_capacity.1 "k" 300001 _ ⟨emptyExtractionResult, 0⟩
      (by decide) (by decide)
  · exact entityCache_ttl_and_capacity.2.1 "k" 300001 _ ⟨emptyExtractionResult, 0⟩
      (by decide) (by decide) (by decide)
  · exact entityCache_ttl_and_capacity.2.2 "x" emptyExtractionResult 7 "a"
      ⟨emptyExtractionResult, 5⟩ (List.replicate 1000 ("b", ⟨emptyExtractionResult, 5⟩))
      (by simp) (chainTs_cons_replicate _ _ (le_refl 5) (le_refl 5) 1000)

namespace SecureNLPProcessor

theorem generateCacheKey_eq_of_take100 (s1 s2 : String)
    (h : s1.data.take 100 = s2.data.take 100) :
    generateCacheKey s1 = generateCacheKey s2 := by
  unfold generateCacheKey
  rw [h]

end SecureNLPProcessor

open SecureNLPProcessor in
/-- **C9.** The result-cache key hashes only the first 100 characters of the
sanitized text: any two texts whose sanitized forms agree on their first 100
characters get the same key, and — after a first call populates the cache —
a later call with the second text within the TTL returns exactly the first
call's cached result, whatever its own extraction stage would have produced
(the result for one input is served for a different input). -/
theorem cacheKey_first100_serves_other_text
    (t1 t2 : String) (collected1 : List NLPEnt) (timerJob1 t0 tLater : Nat)
    (cache0 : List (String × CacheEntry))
    (hpre : (sanitizeInput t1).data.take 100 = (sanitizeInput t2).data.take 100)
    (hne1 : sanitizeInput t1 ≠ "") (hne2 : sanitizeInput t2 ≠ "")
    (hmiss : (checkCache (generateCacheKey (sanitizeInput t1)) t0 cache0).1 = none)
    (hfresh : tLater - t0 < cacheTimeout) :
    generateCacheKey (sanitizeInput t1) = generateCacheKey (sanitizeInput t2) ∧
    ∀ (collected2 : List NLPEnt) (timerJob2 : Nat),
      (extractEntities t2 collected2 timerJob2 tLater
          (extractEntities t1 collected1 timerJob1 t0 cache0).2).1 =
        (extractEntities t1 collected1 timerJob1 t0 cache0).1 := by
  have hkey := generateCacheKey_eq_of_take100 _ _ hpre
  refine ⟨hkey, ?_⟩
  intro collected2 timerJob2
  have h1 : extractEntities t1 collected1 timerJob1 t0 cache0 =
      (validateAndRankEntities collected1 (sanitizeInput t1) t0,
        cacheResults (generateCacheKey (sanitizeInput t1))
          (validateAndRankEntities collected1 (sanitizeInput t1) t0) t0
          (checkCache (generateCacheKey (sanitizeInput t1)) t0 cache0).2) := by
    unfold extractEntities
    rw [if_neg hne1]
    dsimp only []
    rcases hck : checkCache (generateCacheKey (sanitizeInput t1)) t0 cache0 with ⟨fst, c1⟩
    rw [hck] at hmiss
    simp only at hmiss
    subst hmiss
    rw [performEntityExtraction_ok]
  rw [h1]
  dsimp only []
  unfold extractEntities
  rw [if_neg hne2]
  dsimp only []
  rw [← hkey]
  have hget : ∀ c : List (String × CacheEntry),
      getAssoc (generateCacheKey (sanitizeInput t1))
        (cacheResults (generateCacheKey (sanitizeInput t1))
          (validateAndRankEntities collected1 (sanitizeInput t1) t0) t0 c) =
        some ⟨validateAndRankEntities collected1 (sanitizeInput t1) t0, t0⟩ := by
    intro c
    unfold cacheResults
    dsimp only []
    exact getAssoc_setAssoc_self _ _ _
  unfold checkCache
  rw [hget]
  dsimp only []
  rw [if_pos hfresh]

/-- First witness text: one hundred `a`s then `XYZ`. -/
def c9TextA : String := String.mk (List.replicate 100 'a' ++ "XYZ".data)

/-- Second witness text: one hundred `a`s then `QQQ` (distinct text, same
first 100 characters). -/
def c9TextB : String := String.mk (List.replicate 100 'a' ++ "QQQ".data)

set_option maxRecDepth 100000 in
open SecureNLPProcessor in
/-- **C9 (witness).** Two concrete distinct 103-character texts agreeing on
their first 100 characters: same key, and the second call (whatever its own
extraction stage and timer schedule) returns the first call's result. -/
theorem cacheKey_first100_serves_other_text_witness :
    generateCacheKey (sanitizeInput c9TextA) = generateCacheKey (sanitizeInput c9TextB) ∧
    (extractEntities c9TextB [] 999 10 (extractEntities c9TextA [] 0 0 []).2).1 =
      (extractEntities c9TextA [] 0 0 []).1 := by
  have h := cacheKey_first100_serves_other_text c9TextA c9TextB [] 0 0 10 []
    (by decide) (by decide) (by decide) (by decide) (by decide)
  exact ⟨h.1, h.2 [] 999⟩

/-! ## EnhancedNLPProcessor ranking — `nlp-processor-enhanced.js` -/

namespace EnhancedNLP

/-- The knowledge-base match attached by `enhanceEntities`; the ranking
comparator reads only its `score`. -/
structure KBMatch where
  score : ℚ
deriving DecidableEq

/-- An enhanced entity as seen by `rankEnhancedEntities` (lines 223–254): the
comparator reads `knowledgeBase`, `confidence`, `type` and `position`.
`a.position || 0` collapses a missing position to 0, so `position : Nat`
with 0 for absent is exact. -/
structure EnhEnt where
  confidence : ℚ
  type : String
  position : Nat
  knowledgeBase : Option KBMatch
deriving DecidableEq

/-- `a.knowledgeBase && a.knowledgeBase.score > 0.8`. -/
def hasStrongKB (e : EnhEnt) : Bool :=
  match e.knowledgeBase with
  | some r => decide (r.score > 0.8)
  | none => false

/-- The `typeOrder` table (lines 238–244) with the `|| 0` default. -/
def typeOrderScore (t : String) : ℚ :=
  if t = "ticker" then 5
  else if t = "company" then 4
  else if t = "company_intl" then 3
  else if t = "company_abbrev" then 2
  else if t = "company_context" then 1
  else 0

/-- The comparator of `rankEnhancedEntities`: knowledge-base match first,
then confidence descending, then type priority, then position ascending. -/
def rankCmp (a b : EnhEnt) : ℚ :=
  let aHasKB := hasStrongKB a
  let bHasKB := hasStrongKB b
  if aHasKB && !bHasKB then -1
  else if !aHasKB && bHasKB then 1
  else if a.confidence ≠ b.confidence then b.confidence - a.confidence
  else if typeOrderScore a.type ≠ typeOrderScore b.type then
    typeOrderScore b.type - typeOrderScore a.type
  else (a.position : ℚ) - (b.position : ℚ)

/-- `rankEnhancedEntities` (lines 223–254): `entities.sort(comparator)`,
a stable sort under the total preorder induced by the comparator (V8's sort
is stable; a stable insertion sort produces the identical list). -/
def rankEnhancedEntities (l : List EnhEnt) : List EnhEnt :=
  List.insertionSort (fun a b => rankCmp a b ≤ 0) l

/-- Rank of the knowledge-base criterion: matched entities first. -/
def kbRank (e : EnhEnt) : ℚ := if hasStrongKB e then 0 else 1

/-- The total preorder the comparator induces, spelled lexicographically. -/
def rankKeyLe (a b : EnhEnt) : Prop :=
  kbRank a < kbRank b ∨
    (kbRank a = kbRank b ∧
      (b.confidence < a.confidence ∨
        (a.confidence = b.confidence ∧
          (typeOrderScore b.type < typeOrderScore a.type ∨
            (typeOrderScore a.type = typeOrderScore b.type ∧
              (a.position : ℚ) ≤ (b.position : ℚ))))))

theorem cmpTail_le_iff (a b : EnhEnt) :
    ((if a.confidence ≠ b.confidence then b.confidence - a.confidence
      else if typeOrderScore a.type ≠ typeOrderScore b.type then
        typeOrderScore b.type - typeOrderScore a.type
      else (a.position : ℚ) - (b.position : ℚ)) ≤ 0) ↔
      (b.confidence < a.confidence ∨
        (a.confidence = b.confidence ∧
          (typeOrderScore b.type < typeOrderScore a.type ∨
            (typeOrderScore a.type = typeOrderScore b.type ∧
              (a.position : ℚ) ≤ (b.position : ℚ))))) := by
  split_ifs with h1 h2
  · constructor
    · intro h
      exact Or.inl (lt_of_le_of_ne (by linarith) (fun hh => h1 hh.symm))
    · intro h
      rcases h with h | ⟨heq, _⟩
      · linarith
      · exact absurd heq h1
  · push_neg at h1
    constructor
    · intro h
      exact Or.inr ⟨h1, Or.inl (lt_of_le_of_ne (by linarith) (fun hh => h2 hh.symm))⟩
    · intro h
      rcases h with h | ⟨_, h | ⟨hteq, _⟩⟩
      · linarith
      · linarith
      · exact absurd hteq h2
  · push_neg at h1 h2
    constructor
    · intro h
      exact Or.inr ⟨h1, Or.inr ⟨h2, by linarith⟩⟩
    · intro h
      rcases h with h | ⟨_, h | ⟨_, h⟩⟩
      · linarith
      · linarith
      · linarith

theorem rankCmp_le_iff (a b : EnhEnt) : rankCmp a b ≤ 0 ↔ rankKeyLe a b := by
  unfold rankCmp rankKeyLe kbRank
  dsimp only []
  cases ha : hasStrongKB a <;> cases hb : hasStrongKB b <;>
    simp only [Bool.not_true, Bool.not_false, Bool.and_true, Bool.and_false,
      Bool.true_and, Bool.false_and, Bool.and_self, if_true, if_false]
  · simpa using cmpTail_le_iff a b
  · norm_num
  · norm_num
  · simpa using cmpTail_le_iff a b

theorem rankKeyLe_trans (a b c : EnhEnt) :
    rankKeyLe a b → rankKeyLe b c → rankKeyLe a c := by
  intro h1 h2
  rcases h1 with h1 | ⟨e1, h1⟩
  · rcases h2 with h2 | ⟨e2, _⟩
    · exact Or.inl (lt_trans h1 h2)
    · exact Or.inl (e2 ▸ h1)
  · rcases h2 with h2 | ⟨e2, h2⟩
    · exact Or.inl (by rw [e1]; exact h2)
    · right
      refine ⟨e1.trans e2, ?_⟩
      rcases h1 with h1 | ⟨f1, h1⟩ <;> rcases h2 with h2 | ⟨f2, h2⟩
      · exact Or.inl (lt_trans h2 h1)
      · exact Or.inl (f2 ▸ h1)
      · exact Or.inl (by rw [f1]; exact h2)
      · right
        refine ⟨f1.trans f2, ?_⟩
        rcases h1 with h1 | ⟨g1, h1⟩ <;> rcases h2 with h2 | ⟨g2, h2⟩
        · exact Or.inl (lt_trans h2 h1)
        · exact Or.inl (g2 ▸ h1)
        · exact Or.inl (by rw [g1]; exact h2)
        · exact Or.inr ⟨g1.trans g2, le_trans h1 h2⟩

theorem rankKeyLe_total (a b : EnhEnt) : rankKeyLe a b ∨ rankKeyLe b a := by
  rcases lt_trichotomy (kbRank a) (kbRank b) with h | h | h
  · exact Or.inl (Or.inl h)
  · rcases lt_trichotomy a.confidence b.confidence with hc | hc | hc
    · exact Or.inr (Or.inr ⟨h.symm, Or.inl hc⟩)
    · rcases lt_trichotomy (typeOrderScore a.type) (typeOrderScore b.type) with ht | ht | ht
      · exact Or.inr (Or.inr ⟨h.symm, Or.inr ⟨hc.symm, Or.inl ht⟩⟩)
      · rcases le_total ((a.position : ℚ)) ((b.position : ℚ)) with hp | hp
        · exact Or.inl (Or.inr ⟨h, Or.inr ⟨hc, Or.inr ⟨ht, hp⟩⟩⟩)
        · exact Or.inr (Or.inr ⟨h.symm, Or.inr ⟨hc.symm, Or.inr ⟨ht.symm, hp⟩⟩⟩)
      · exact Or.inl (Or.inr ⟨h, Or.inr ⟨hc, Or.inl ht⟩⟩)
    · exact Or.inl (Or.inr ⟨h, Or.inl hc⟩)
  · exact Or.inr (Or.inl h)

/-- Adjacent-pairs check used to state ordering properties executably. -/
def pairwiseAdj (p : EnhEnt → EnhEnt → Bool) : List EnhEnt → Bool
  | [] => true
  | [_] => true
  | a :: b :: rest => p a b && pairwiseAdj p (b :: rest)

/-- The ordering the claim asserts for adjacent output entities: score
descending, ties by earlier position, then by type priority. -/
def claimAdjOrder (a b : EnhEnt) : Bool :=
  decide (b.confidence < a.confidence) ||
    (decide (a.confidence = b.confidence) &&
      (decide (a.position < b.position) ||
        (decide (a.position = b.position) &&
          decide (typeOrderScore b.type ≤ typeOrderScore a.type))))

end EnhancedNLP

/-- **C6 (counterexample).** A knowledge-base match overrides the score
order: ranking a 0.95-confidence entity at position 0 against a
0.8-confidence entity with a strong knowledge-base match (score 0.9) puts
the lower-scoring entity first, so the output violates the claimed
score/position/type ordering. -/
theorem rankEnhancedEntities_violates_claimed_order :
    EnhancedNLP.pairwiseAdj EnhancedNLP.claimAdjOrder
        (EnhancedNLP.rankEnhancedEntities
          [⟨0.95, "company", 0, none⟩, ⟨0.8, "company", 10, some ⟨0.9⟩⟩]) = false := by
  with_unfolding_all decide

open EnhancedNLP in
/-- **C6 (amended).** The ranked list is a permutation of the input ordered
(for every adjacent pair) first by presence of a knowledge-base match with
score above 0.8, then by score descending, then by type priority
ticker > company > company_intl > company_abbrev > company_context, and only
then by earlier text position. -/
theorem rankEnhancedEntities_order (l : List EnhEnt) :
    List.Perm (rankEnhancedEntities l) l ∧
      List.Chain' rankKeyLe (rankEnhancedEntities l) := by
  letI : IsTotal EnhEnt (fun a b => rankCmp a b ≤ 0) :=
    ⟨fun a b => by
      rw [rankCmp_le_iff, rankCmp_le_iff]
      exact rankKeyLe_total a b⟩
  letI : IsTrans EnhEnt (fun a b => rankCmp a b ≤ 0) :=
    ⟨fun a b c h1 h2 => by
      rw [rankCmp_le_iff] at h1 h2 ⊢
      exact rankKeyLe_trans a b c h1 h2⟩
  constructor
  · exact List.perm_insertionSort _ l
  · have hs := List.sorted_insertionSort (fun a b => rankCmp a b ≤ 0) l
    exact (List.Pairwise.chain' hs).imp (fun {a b} h => (rankCmp_le_iff a b).mp h)

/-! ## DOMInterpreter — `dom-interpreter.js` -/

namespace DOMInterpreter

/-- `this.positionWeights` (constructor, lines 16–25). -/
def positionWeights : List (String × ℚ) :=
  [("title", 1.0), ("h1", 0.9), ("h2", 0.8), ("h3", 0.7),
   ("articleHeader", 0.85), ("articleBody", 0.6), ("sidebar", 0.3), ("footer", 0.1)]

/-- `this.positionWeights[pos] || 0.5`: the table value when present and
truthy, else 0.5. -/
def lookupWeight (pos : String) : ℚ :=
  match getAssoc pos positionWeights with
  | some w => if w = 0 then 0.5 else w
  | none => 0.5

/-- `calculateStructuralWeight` (lines 226–235): running maximum of the
looked-up weights, starting from 0. -/
def calculateStructuralWeight (positions : List String) : ℚ :=
  positions.foldl (fun maxWeight pos => max maxWeight (lookupWeight pos)) 0

theorem getAssoc_mem {α : Type} (k : String) (v : α) :
    ∀ l : List (String × α), getAssoc k l = some v → (k, v) ∈ l := by
  intro l
  induction l with
  | nil => intro h; exact absurd h (by simp [getAssoc])
  | cons p t ih =>
    intro h
    rcases p with ⟨k', v'⟩
    by_cases hk : k' = k
    · subst hk
      rw [getAssoc, if_pos rfl] at h
      rcases Option.some.inj h with rfl
      exact List.mem_cons_self _ _
    · rw [getAssoc, if_neg hk] at h
      exact List.mem_cons_of_mem _ (ih h)

theorem lookupWeight_pos (p : String) : 0 < lookupWeight p := by
  unfold lookupWeight
  rcases h : getAssoc p positionWeights with _ | w
  · norm_num
  · have hmem := getAssoc_mem p w positionWeights h
    have hall : ∀ q ∈ positionWeights, (0 : ℚ) < q.2 := by
      intro q hq
      simp only [positionWeights, List.mem_cons, List.not_mem_nil, or_false] at hq
      rcases hq with rfl | rfl | rfl | rfl | rfl | rfl | rfl | rfl <;> norm_num
    have hw : 0 < w := hall (p, w) hmem
    dsimp only []
    rw [if_neg hw.ne']
    exact hw

end DOMInterpreter

/-- **C8 (counterexample).** With an empty position list, the running
maximum never leaves its initial value: `calculateStructuralWeight [] = 0`,
not the claimed default 0.5. -/
theorem calculateStructuralWeight_nil_not_half :
    DOMInterpreter.calculateStructuralWeight [] = 0 ∧
      DOMInterpreter.calculateStructuralWeight [] ≠ 0.5 := by
  constructor
  · rfl
  · with_unfolding_all decide

/-- **C8 (amended).** For a nonempty position list the structural weight is
the maximum over the tags present of the fixed lookup table, with 0.5 for an
unrecognized tag; for an empty position list it is 0 (not 0.5). -/
theorem calculateStructuralWeight_spec :
    DOMInterpreter.calculateStructuralWeight [] = 0 ∧
      ∀ (p : String) (ps : List String),
        DOMInterpreter.calculateStructuralWeight (p :: ps) =
          ps.foldl (fun maxWeight pos => max maxWeight (DOMInterpreter.lookupWeight pos))
            (DOMInterpreter.lookupWeight p) := by
  constructor
  · rfl
  · intro p ps
    unfold DOMInterpreter.calculateStructuralWeight
    rw [List.foldl_cons, max_eq_right (le_of_lt (DOMInterpreter.lookupWeight_pos p))]

/-! ## ConfidenceScorer — `confidence-scorer.js` -/

namespace ConfidenceScorer

/-- `split(/\s+/)` with JS semantics: maximal whitespace runs separate the
pieces, and a leading/trailing run contributes an empty piece.  The fuel
argument (initially the input length) only serves structural termination. -/
def splitRunsGo : Nat → List Char → List Char → List String
  | _, cur, [] => [String.mk cur.reverse]
  | 0, cur, _ :: _ => [String.mk cur.reverse]
  | fuel + 1, cur, c :: rest =>
    if isJsWs c then String.mk cur.reverse :: splitRunsGo fuel [] (rest.dropWhile isJsWs)
    else splitRunsGo fuel (c :: cur) rest

/-- See `splitRunsGo`. -/
def splitWs (s : String) : List String := splitRunsGo s.data.length [] s.data

/-- `calculateSimilarity` (lines 247–256): word Jaccard similarity. -/
def calculateSimilarity (str1 str2 : String) : ℚ :=
  let words1 := FuzzyMatcher.dedupFirst (splitWs (toLowerStr str1))
  let words2 := FuzzyMatcher.dedupFirst (splitWs (toLowerStr str2))
  let intersection := words1.filter (fun t => t ∈ words2)
  let union := FuzzyMatcher.dedupFirst (words1 ++ words2)
  (intersection.length : ℚ) / (union.length : ℚ)

/-- `factors.patternMatch` fields read by the scorer. -/
structure PatternFactor where
  confidence : Option ℚ
  type : Option String
  entity : Option String
deriving DecidableEq

/-- A DOM context clue; the scorer reads only its `type` (its `value` and
`confidence` never are). -/
structure ClueFactor where
  type : String
deriving DecidableEq

/-- `factors.domContext` fields read by the scorer. -/
structure DomFactor where
  confidence : Option ℚ
  position : Option (List String)
  contextClues : Option (List ClueFactor)
deriving DecidableEq

/-- An element of `nlpConfidence.entities`; the scorer reads `confidence`
and (for the first element) `normalized`. -/
structure NLPSubEnt where
  confidence : ℚ
  normalized : String
deriving DecidableEq

/-- `factors.nlpConfidence` fields read by the scorer. -/
structure NLPFactor where
  confidence : Option ℚ
  entities : Option (List NLPSubEnt)
deriving DecidableEq

/-- `factors.entity` fields read by the scorer. -/
structure EntityFactor where
  text : Option String
  normalized : Option String
  type : Option String
deriving DecidableEq

/-- The `factors` argument of `calculateScore`. -/
structure Factors where
  patternMatch : Option PatternFactor
  domContext : Option DomFactor
  nlpConfidence : Option NLPFactor
  entity : Option EntityFactor
deriving DecidableEq

/-- The optional `context` argument (the scorer reads `context.industry`). -/
structure ScoreContext where
  industry : Option String
deriving DecidableEq

/-- JS `x || d` on an optional string. -/
def jsOrStr (x : Option String) (d : String) : String :=
  match x with
  | some s => if s = "" then d else s
  | none => d

/-- `validateFactors` output: the factor groups with their `confidence`
fields defaulted (`|| 0`) and the entity strings defaulted. -/
structure VPatternFactor where
  confidence : ℚ
  type : Option String
  entity : Option String

/-- See `VPatternFactor`. -/
structure VDomFactor where
  confidence : ℚ
  position : Option (List String)
  contextClues : Option (List ClueFactor)

/-- See `VPatternFactor`. -/
structure VNLPFactor where
  confidence : ℚ
  entities : Option (List NLPSubEnt)

/-- See `VPatternFactor`. -/
structure VEntityFactor where
  text : String
  normalized : String
  type : Option String

/-- See `VPatternFactor`. -/
structure VFactors where
  patternMatch : VPatternFactor
  domContext : VDomFactor
  nlpConfidence : VNLPFactor
  entity : VEntityFactor

/-- `validateFactors` (lines 120–136).  (`confidence || 0` and
`Option.getD 0` agree: a present numeric confidence is kept — `0` maps to
`0` either way — and an absent one becomes 0.) -/
def validateFactors (f : Factors) : VFactors :=
  let pm := f.patternMatch.getD ⟨none, none, none⟩
  let dc := f.domContext.getD ⟨none, none, none⟩
  let nc := f.nlpConfidence.getD ⟨none, none⟩
  let en := f.entity.getD ⟨none, none, none⟩
  let text := jsOrStr en.text ""
  let normalized := jsOrStr en.normalized text
  { patternMatch := ⟨pm.confidence.getD 0, pm.type, pm.entity⟩,
    domContext := ⟨dc.confidence.getD 0, dc.position, dc.contextClues⟩,
    nlpConfidence := ⟨nc.confidence.getD 0, nc.entities⟩,
    entity := ⟨text, normalized, en.type⟩ }

/-- `scorePatternMatch` (lines 138–154). -/
def scorePatternMatch (pm : VPatternFactor) : ℚ :=
  let score := pm.confidence
  let score := if pm.type = some "ticker" then score * 1.2
    else if pm.type = some "company_formal" then score * 1.1
    else score
  let score := if pm.type = some "company_context" then score * 0.8 else score
  min score 1.0

/-- `scoreDOMContext` (lines 156–181). -/
def scoreDOMContext (dc : VDomFactor) : ℚ :=
  let score := dc.confidence
  let score := match dc.position with
    | some pos =>
      if "h1" ∈ pos then score * 1.3
      else if "h2" ∈ pos then score * 1.2
      else if "firstParagraph" ∈ pos then score * 1.15
      else score
    | none => score
  let score := match dc.contextClues with
    | some clues =>
      if clues.any (fun clue =>
          clue.type = "dataAttribute" || FuzzyMatcher.containsSub "ticker" clue.type) then
        score * 1.25
      else score
    | none => score
  min score 1.0

/-- `scoreNLPConfidence` (lines 183–204). -/
def scoreNLPConfidence (nc : VNLPFactor) : ℚ :=
  let score := nc.confidence
  let score := match nc.entities with
    | some (top :: rest) =>
      let s1 := if top.confidence > 0.9 then score * 1.15 else score
      if (rest.filter (fun e => e.confidence > 0.7)).length > 0 then s1 * 1.1 else s1
    | _ => score
  min score 1.0

/-- A record of `initializeKnownEntities` (lines 34–77). -/
structure KnownEnt where
  name : String
  aliases : List String
  ticker : Option String
  sector : String
deriving DecidableEq

/-- The seeded companies, in source order (tech, finance, institutional). -/
def scorerCompanies : List KnownEnt :=
  [⟨"Apple Inc.", ["Apple", "AAPL"], some "AAPL", "technology"⟩,
   ⟨"Microsoft Corporation", ["Microsoft", "MSFT"], some "MSFT", "technology"⟩,
   ⟨"Alphabet Inc.", ["Google", "Alphabet", "GOOGL", "GOOG"], some "GOOGL", "technology"⟩,
   ⟨"Amazon.com Inc.", ["Amazon", "AMZN"], some "AMZN", "technology"⟩,
   ⟨"Meta Platforms Inc.", ["Facebook", "Meta", "FB", "META"], some "META", "technology"⟩,
   ⟨"JPMorgan Chase & Co.", ["JPMorgan", "Chase", "JPM"], some "JPM", "finance"⟩,
   ⟨"Bank of America Corporation", ["Bank of America", "BofA", "BAC"], some "BAC", "finance"⟩,
   ⟨"Wells Fargo & Company", ["Wells Fargo", "WFC"], some "WFC", "finance"⟩,
   ⟨"Goldman Sachs Group Inc.", ["Goldman Sachs", "Goldman", "GS"], some "GS", "finance"⟩,
   ⟨"Morgan Stanley", ["MS"], some "MS", "finance"⟩,
   ⟨"The Vanguard Group", ["Vanguard"], none, "asset_management"⟩,
   ⟨"BlackRock Inc.", ["BlackRock", "BLK"], some "BLK", "asset_management"⟩,
   ⟨"State Street Corporation", ["State Street", "STT"], some "STT", "asset_management"⟩,
   ⟨"Fidelity Investments", ["Fidelity"], none, "asset_management"⟩]

/-- The lookup `Map` built by `initializeKnownEntities` (lines 59–76):
lowercased name, aliases, ticker and `$ticker` keys. -/
def knownEntities : List (String × KnownEnt) :=
  scorerCompanies.foldl
    (fun m company =>
      let m := setAssoc (toLowerStr company.name) company m
      let m := company.aliases.foldl
        (fun m al => setAssoc (toLowerStr al) company m) m
      match company.ticker with
      | some t =>
        setAssoc (toLowerStr ("$" ++ t)) company (setAssoc (toLowerStr t) company m)
      | none => m)
    []

/-- `checkSectorConsistency` (lines 258–269). -/
def checkSectorConsistency (detectedIndustry knownSector : String) : Bool :=
  let sectorKeywords :=
    if knownSector = "technology" then ["tech", "software", "internet", "digital"]
    else if knownSector = "finance" then ["financial", "banking", "investment"]
    else if knownSector = "asset_management" then ["investment", "fund", "capital"]
    else []
  sectorKeywords.any (fun keyword =>
    FuzzyMatcher.containsSub keyword (toLowerStr detectedIndustry))

/-- `fuzzyMatchKnownEntity` (lines 232–245). -/
def fuzzyMatchKnownEntity (entityText : String) : ℚ :=
  knownEntities.foldl
    (fun bestScore p =>
      let similarity := calculateSimilarity entityText p.1
      if similarity > 0.8 then max bestScore (similarity * 0.8) else bestScore)
    0

/-- `scoreCrossReference` (lines 206–230).  `entity.normalized?.toLowerCase()
|| entity.text?.toLowerCase() || ''` on the validated entity; `context.industry`
is consulted only when truthy. -/
def scoreCrossReference (en : VEntityFactor) (ctx : ScoreContext) : ℚ :=
  let a := toLowerStr en.normalized
  let normalizedEntity := if a ≠ "" then a else toLowerStr en.text
  match getAssoc normalizedEntity knownEntities with
  | none => fuzzyMatchKnownEntity normalizedEntity
  | some knownEntity =>
    let score : ℚ := 0.9
    let score :=
      if en.type = some "ticker" ∧ knownEntity.ticker = some (toUpperStr en.text) then 1.0
      else score
    let score := match ctx.industry with
      | some ind =>
        if ind ≠ "" then
          if checkSectorConsistency ind knownEntity.sector then score * 1.1 else score * 0.9
        else score
      | none => score
    min score 1.0

/-- The first consistency check of `scoreContextConsistency` (lines 274–286):
pattern-detected entity versus first NLP entity. -/
def consistencyCheck1 (vf : VFactors) : List ℚ :=
  match vf.patternMatch.entity, vf.nlpConfidence.entities with
  | some pe, some (top :: _) =>
    if pe ≠ "" then
      let patternEntity := toLowerStr pe
      let nlpEntity := toLowerStr top.normalized
      if patternEntity = nlpEntity then [1.0]
      else if calculateSimilarity patternEntity nlpEntity > 0.7 then [0.8]
      else [0.5]
    else []
  | _, _ => []

/-- The second consistency check (lines 289–298): clue types versus the
entity's declared type. -/
def consistencyCheck2 (vf : VFactors) : List ℚ :=
  match vf.domContext.contextClues, vf.entity.type with
  | some clues, some ty =>
    if ty ≠ "" then
      let hasRelevantClues := clues.any (fun clue =>
        if ty = "ticker" then
          FuzzyMatcher.containsSub "ticker" clue.type ||
            FuzzyMatcher.containsSub "symbol" clue.type
        else FuzzyMatcher.containsSub "company" clue.type)
      if hasRelevantClues then [1.0] else [0.6]
    else []
  | _, _ => []

/-- `scoreContextConsistency` (lines 271–304): average of the applicable
checks, defaulting to 0.7 when none applies. -/
def scoreContextConsistency (vf : VFactors) (_ctx : ScoreContext) : ℚ :=
  let consistencyChecks := consistencyCheck1 vf ++ consistencyCheck2 vf
  if consistencyChecks.length = 0 then 0.7
  else (consistencyChecks.foldl (· + ·) 0) / (consistencyChecks.length : ℚ)

/-- The five sub-scores (the `scores` object of `calculateScore`). -/
structure SubScores where
  patternMatch : ℚ
  domContext : ℚ
  nlpConfidence : ℚ
  crossReference : ℚ
  contextConsistency : ℚ
deriving DecidableEq

/-- `calculateWeightedScore` (lines 306–317) with the constructor weights
0.25/0.20/0.25/0.15/0.15. -/
def calculateWeightedScore (s : SubScores) : ℚ :=
  let weightedSum := s.patternMatch * 0.25 + s.domContext * 0.20 +
    s.nlpConfidence * 0.25 + s.crossReference * 0.15 + s.contextConsistency * 0.15
  let totalWeight : ℚ := 0.25 + 0.20 + 0.25 + 0.15 + 0.15
  if totalWeight > 0 then weightedSum / totalWeight else 0

/-- `determineConfidenceLevel` (lines 319–324) with the constructor
thresholds 0.85/0.65/0.45. -/
def determineConfidenceLevel (score : ℚ) : String :=
  if score ≥ 0.85 then "high"
  else if score ≥ 0.65 then "medium"
  else if score ≥ 0.45 then "low"
  else "reject"

/-- `findWeakestFactor` (lines 339–359): first strictly-lowest sub-score
below 1.0, in insertion order, mapped to its display name ("unknown factor"
when every sub-score is at least 1.0). -/
def findWeakestFactor (s : SubScores) : String :=
  let entries := [("pattern matching", s.patternMatch), ("DOM position", s.domContext),
    ("NLP extraction", s.nlpConfidence), ("entity verification", s.crossReference),
    ("context consistency", s.contextConsistency)]
  let result := entries.foldl
    (fun (acc : Option String × ℚ) e =>
      if e.2 < acc.2 then (some e.1, e.2) else acc)
    (none, 1.0)
  result.1.getD "unknown factor"

/-- `getRecommendation` (lines 326–337). -/
def getRecommendation (_score : ℚ) (level : String) (breakdown : SubScores) : String :=
  if level = "high" then "Entity highly reliable - proceed with confidence"
  else if level = "medium" then
    "Entity moderately reliable - verify " ++ findWeakestFactor breakdown
  else if level = "low" then "Entity uncertain - additional validation recommended"
  else "Entity not reliable - consider rejection"

/-- The value returned by `calculateScore`. -/
structure ScoreResult where
  score : ℚ
  level : String
  breakdown : SubScores
  recommendation : String
deriving DecidableEq

/-- `calculateScore` (lines 79–118).  The model's functions are total, so the
catch path (score 0, level "error") is unreachable. -/
def calculateScore (factors : Factors) (ctx : ScoreContext) : ScoreResult :=
  let vf := validateFactors factors
  let scores : SubScores :=
    { patternMatch := scorePatternMatch vf.patternMatch,
      domContext := scoreDOMContext vf.domContext,
      nlpConfidence := scoreNLPConfidence vf.nlpConfidence,
      crossReference := scoreCrossReference vf.entity ctx,
      contextConsistency := scoreContextConsistency vf ctx }
  let finalScore := calculateWeightedScore scores
  let level := determineConfidenceLevel finalScore
  { score := finalScore, level := level, breakdown := scores,
    recommendation := getRecommendation finalScore level scores }

end ConfidenceScorer

namespace ConfidenceScorer

theorem calculateSimilarity_bounds (s1 s2 : String) :
    0 ≤ calculateSimilarity s1 s2 ∧ calculateSimilarity s1 s2 ≤ 1 := by
  unfold calculateSimilarity
  dsimp only []
  by_cases h : (FuzzyMatcher.dedupFirst
      (FuzzyMatcher.dedupFirst (splitWs (toLowerStr s1)) ++
        FuzzyMatcher.dedupFirst (splitWs (toLowerStr s2)))).length = 0
  · rw [h]
    norm_num
  · exact FuzzyMatcher.interUnion_bounds _ _ (FuzzyMatcher.dedupFirst_nodup _) h

theorem min_one_bounds {x : ℚ} (hx : 0 ≤ x) :
    0 ≤ min x (1.0 : ℚ) ∧ min x (1.0 : ℚ) ≤ 1 :=
  ⟨le_min hx (by norm_num), le_trans (min_le_right _ _) (by norm_num)⟩

theorem scorePatternMatch_bounds (pm : VPatternFactor) (h : 0 ≤ pm.confidence) :
    0 ≤ scorePatternMatch pm ∧ scorePatternMatch pm ≤ 1 := by
  unfold scorePatternMatch
  dsimp only []
  split_ifs <;> exact min_one_bounds (by positivity)

theorem scoreDOMContext_bounds (dc : VDomFactor) (h : 0 ≤ dc.confidence) :
    0 ≤ scoreDOMContext dc ∧ scoreDOMContext dc ≤ 1 := by
  unfold scoreDOMContext
  rcases dc.position with _ | pos <;> rcases dc.contextClues with _ | clues <;>
    dsimp only [] <;> (try split_ifs) <;> exact min_one_bounds (by positivity)

theorem scoreNLPConfidence_bounds (nc : VNLPFactor) (h : 0 ≤ nc.confidence) :
    0 ≤ scoreNLPConfidence nc ∧ scoreNLPConfidence nc ≤ 1 := by
  unfold scoreNLPConfidence
  rcases nc.entities with _ | ents
  · dsimp only []
    exact min_one_bounds h
  · rcases ents with _ | ⟨top, rest⟩ <;>
      dsimp only [] <;> (try split_ifs) <;> exact min_one_bounds (by positivity)

theorem foldl_fuzzy_bounds (t : String) :
    ∀ (l : List (String × KnownEnt)) (acc : ℚ), 0 ≤ acc → acc ≤ 1 →
      0 ≤ l.foldl (fun bestScore p =>
          let similarity := calculateSimilarity t p.1
          if similarity > 0.8 then max bestScore (similarity * 0.8) else bestScore) acc ∧
        l.foldl (fun bestScore p =>
          let similarity := calculateSimilarity t p.1
          if similarity > 0.8 then max bestScore (similarity * 0.8) else bestScore) acc ≤ 1 := by
  intro l
  induction l with
  | nil => intro acc h0 h1; exact ⟨h0, h1⟩
  | cons p rest ih =>
    intro acc h0 h1
    simp only [List.foldl_cons]
    split_ifs with hs
    · refine ih _ (le_max_of_le_left h0) (max_le h1 ?_)
      have hb := (calculateSimilarity_bounds t p.1).2
      linarith
    · exact ih _ h0 h1

theorem fuzzyMatchKnownEntity_bounds (t : String) :
    0 ≤ fuzzyMatchKnownEntity t ∧ fuzzyMatchKnownEntity t ≤ 1 := by
  unfold fuzzyMatchKnownEntity
  exact foldl_fuzzy_bounds t knownEntities 0 le_rfl (by norm_num)

theorem consistencyCheck1_bounds (vf : VFactors) :
    ∀ x ∈ consistencyCheck1 vf, 0 ≤ x ∧ x ≤ 1 := by
  unfold consistencyCheck1
  rcases vf.patternMatch.entity with _ | pe <;>
    rcases vf.nlpConfidence.entities with _ | ents
  · intro x hx; exact absurd hx (List.not_mem_nil x)
  · intro x hx; exact absurd hx (List.not_mem_nil x)
  · intro x hx; exact absurd hx (List.not_mem_nil x)
  · rcases ents with _ | ⟨top, rest⟩
    · intro x hx; exact absurd hx (List.not_mem_nil x)
    · dsimp only []
      split_ifs <;> intro x hx <;>
        simp only [List.mem_singleton, List.not_mem_nil] at hx <;>
        subst hx <;> norm_num

theorem consistencyCheck2_bounds (vf : VFactors) :
    ∀ x ∈ consistencyCheck2 vf, 0 ≤ x ∧ x ≤ 1 := by
  unfold consistencyCheck2
  rcases vf.domContext.contextClues with _ | clues <;>
    rcases vf.entity.type with _ | ty
  · intro x hx; exact absurd hx (List.not_mem_nil x)
  · intro x hx; exact absurd hx (List.not_mem_nil x)
  · intro x hx; exact absurd hx (List.not_mem_nil x)
  · dsimp only []
    split_ifs <;> intro x hx <;>
      simp only [List.mem_singleton, List.not_mem_nil] at hx <;>
      subst hx <;> norm_num

theorem foldl_add_bounds (l : List ℚ) :
    ∀ acc : ℚ, (∀ x ∈ l, 0 ≤ x ∧ x ≤ 1) → 0 ≤ acc →
      0 ≤ l.foldl (· + ·) acc ∧ l.foldl (· + ·) acc ≤ acc + (l.length : ℚ) := by
  induction l with
  | nil => intro acc _ h0; simpa using h0
  | cons x xs ih =>
    intro acc hmem h0
    have hx := hmem x (List.mem_cons_self x xs)
    have hrec := ih (acc + x) (fun y hy => hmem y (List.mem_cons_of_mem _ hy)) (by linarith)
    simp only [List.foldl_cons]
    refine ⟨hrec.1, le_trans hrec.2 ?_⟩
    simp only [List.length_cons]
    push_cast
    linarith

theorem scoreContextConsistency_bounds (vf : VFactors) (ctx : ScoreContext) :
    0 ≤ scoreContextConsistency vf ctx ∧ scoreContextConsistency vf ctx ≤ 1 := by
  unfold scoreContextConsistency
  dsimp only []
  have hmem : ∀ x ∈ consistencyCheck1 vf ++ consistencyCheck2 vf, 0 ≤ x ∧ x ≤ 1 := by
    intro x hx
    rcases List.mem_append.mp hx with h | h
    · exact consistencyCheck1_bounds vf x h
    · exact consistencyCheck2_bounds vf x h
  split_ifs with hlen
  · norm_num
  · have hb := foldl_add_bounds (consistencyCheck1 vf ++ consistencyCheck2 vf) 0 hmem le_rfl
    have hpos : (0 : ℚ) < ((consistencyCheck1 vf ++ consistencyCheck2 vf).length : ℚ) := by
      have := Nat.pos_of_ne_zero hlen
      exact_mod_cast this
    constructor
    · exact div_nonneg hb.1 (le_of_lt hpos)
    · apply (div_le_one hpos).mpr
      have := hb.2
      linarith

theorem scoreCrossReference_bounds (en : VEntityFactor) (ctx : ScoreContext) :
    0 ≤ scoreCrossReference en ctx ∧ scoreCrossReference en ctx ≤ 1 := by
  unfold scoreCrossReference
  dsimp only []
  rcases getAssoc _ knownEntities with _ | known
  · exact fuzzyMatchKnownEntity_bounds _
  · dsimp only []
    rcases ctx.industry with _ | ind <;>
      dsimp only [] <;> (try split_ifs) <;> exact min_one_bounds (by norm_num)

theorem calculateWeightedScore_bounds (s : SubScores)
    (h1 : 0 ≤ s.patternMatch ∧ s.patternMatch ≤ 1)
    (h2 : 0 ≤ s.domContext ∧ s.domContext ≤ 1)
    (h3 : 0 ≤ s.nlpConfidence ∧ s.nlpConfidence ≤ 1)
    (h4 : 0 ≤ s.crossReference ∧ s.crossReference ≤ 1)
    (h5 : 0 ≤ s.contextConsistency ∧ s.contextConsistency ≤ 1) :
    0 ≤ calculateWeightedScore s ∧ calculateWeightedScore s ≤ 1 := by
  unfold calculateWeightedScore
  dsimp only []
  rw [if_pos (by norm_num)]
  have htw : (0.25 + 0.20 + 0.25 + 0.15 + 0.15 : ℚ) = 1 := by norm_num
  rw [htw, div_one]
  obtain ⟨h1a, h1b⟩ := h1
  obtain ⟨h2a, h2b⟩ := h2
  obtain ⟨h3a, h3b⟩ := h3
  obtain ⟨h4a, h4b⟩ := h4
  obtain ⟨h5a, h5b⟩ := h5
  constructor <;> nlinarith

/-- Strictness rank of a confidence level (reject < low < medium < high). -/
def levelRank (level : String) : Nat :=
  if level = "reject" then 0
  else if level = "low" then 1
  else if level = "medium" then 2
  else if level = "high" then 3
  else 0

end ConfidenceScorer

/-- **C4 (counterexample).** The sub-scores are clamped only from above
(`Math.min(score, 1.0)`), so a negative input confidence flows through: with
`patternMatch.confidence = -1` and everything else absent, the final score is
-0.145, outside `[0,1]`. -/
theorem calculateScore_negative_counterexample :
    (ConfidenceScorer.calculateScore ⟨some ⟨some (-1), none, none⟩, none, none, none⟩
        ⟨none⟩).score < 0 := by
  with_unfolding_all decide

namespace ConfidenceScorer

theorem dcl_eq_high_iff (s : ℚ) : determineConfidenceLevel s = "high" ↔ 0.85 ≤ s := by
  unfold determineConfidenceLevel
  split_ifs with h1 h2 h3
  · exact ⟨fun _ => h1, fun _ => rfl⟩
  · exact ⟨fun hx => absurd hx (by decide), fun hx => absurd hx h1⟩
  · exact ⟨fun hx => absurd hx (by decide), fun hx => absurd hx h1⟩
  · exact ⟨fun hx => absurd hx (by decide), fun hx => absurd hx h1⟩

theorem dcl_eq_medium_iff (s : ℚ) :
    determineConfidenceLevel s = "medium" ↔ 0.65 ≤ s ∧ s < 0.85 := by
  unfold determineConfidenceLevel
  split_ifs with h1 h2 h3
  · exact ⟨fun hx => absurd hx (by decide), fun hx => absurd hx.2 (not_lt.mpr h1)⟩
  · exact ⟨fun _ => ⟨h2, not_le.mp h1⟩, fun _ => rfl⟩
  · exact ⟨fun hx => absurd hx (by decide), fun hx => absurd hx.1 h2⟩
  · exact ⟨fun hx => absurd hx (by decide), fun hx => absurd hx.1 h2⟩

theorem dcl_eq_low_iff (s : ℚ) :
    determineConfidenceLevel s = "low" ↔ 0.45 ≤ s ∧ s < 0.65 := by
  unfold determineConfidenceLevel
  split_ifs with h1 h2 h3
  · refine ⟨fun hx => absurd hx (by decide), fun hx => absurd hx.2 (not_lt.mpr ?_)⟩
    calc (0.65 : ℚ) ≤ 0.85 := by norm_num
      _ ≤ s := h1
  · exact ⟨fun hx => absurd hx (by decide), fun hx => absurd hx.2 (not_lt.mpr h2)⟩
  · exact ⟨fun _ => ⟨h3, not_le.mp h2⟩, fun _ => rfl⟩
  · exact ⟨fun hx => absurd hx (by decide), fun hx => absurd hx.1 h3⟩

theorem dcl_eq_reject_iff (s : ℚ) :
    determineConfidenceLevel s = "reject" ↔ s < 0.45 := by
  unfold determineConfidenceLevel
  split_ifs with h1 h2 h3
  · refine ⟨fun hx => absurd hx (by decide), fun hx => absurd hx (not_lt.mpr ?_)⟩
    calc (0.45 : ℚ) ≤ 0.85 := by norm_num
      _ ≤ s := h1
  · refine ⟨fun hx => absurd hx (by decide), fun hx => absurd hx (not_lt.mpr ?_)⟩
    calc (0.45 : ℚ) ≤ 0.65 := by norm_num
      _ ≤ s := h2
  · exact ⟨fun hx => absurd hx (by decide), fun hx => absurd hx (not_lt.mpr h3)⟩
  · exact ⟨fun _ => not_le.mp h3, fun _ => rfl⟩

theorem levelRank_det (s : ℚ) :
    levelRank (determineConfidenceLevel s) =
      (if s ≥ 0.85 then 3 else if s ≥ 0.65 then 2 else if s ≥ 0.45 then 1 else 0) := by
  unfold determineConfidenceLevel
  split_ifs <;> decide

theorem levelRank_mono (s1 s2 : ℚ) (h : s1 ≤ s2) :
    levelRank (determineConfidenceLevel s1) ≤ levelRank (determineConfidenceLevel s2) := by
  rw [levelRank_det, levelRank_det]
  split_ifs <;> (try norm_num) <;> linarith

end ConfidenceScorer

open ConfidenceScorer in
/-- **C4 (amended).** Whenever the three input factor confidences are
nonnegative (they are unclamped below; see the counterexample), the final
score lies in `[0,1]`; and independently of that hypothesis, the confidence
level is a pure, monotonic function of the score alone with the fixed cut
points high ≥ 0.85, medium ≥ 0.65, low ≥ 0.45, reject otherwise. -/
theorem calculateScore_bounds_and_level (f : Factors) (ctx : ScoreContext)
    (h1 : 0 ≤ (validateFactors f).patternMatch.confidence)
    (h2 : 0 ≤ (validateFactors f).domContext.confidence)
    (h3 : 0 ≤ (validateFactors f).nlpConfidence.confidence) :
    (0 ≤ (calculateScore f ctx).score ∧ (calculateScore f ctx).score ≤ 1) ∧
    (calculateScore f ctx).level = determineConfidenceLevel (calculateScore f ctx).score ∧
    (∀ s1 s2 : ℚ, s1 ≤ s2 →
      levelRank (determineConfidenceLevel s1) ≤ levelRank (determineConfidenceLevel s2)) ∧
    (∀ s : ℚ,
      (determineConfidenceLevel s = "high" ↔ 0.85 ≤ s) ∧
      (determineConfidenceLevel s = "medium" ↔ 0.65 ≤ s ∧ s < 0.85) ∧
      (determineConfidenceLevel s = "low" ↔ 0.45 ≤ s ∧ s < 0.65) ∧
      (determineConfidenceLevel s = "reject" ↔ s < 0.45)) := by
  refine ⟨?_, rfl, levelRank_mono, fun s =>
    ⟨dcl_eq_high_iff s, dcl_eq_medium_iff s, dcl_eq_low_iff s, dcl_eq_reject_iff s⟩⟩
  exact calculateWeightedScore_bounds
    { patternMatch := scorePatternMatch (validateFactors f).patternMatch,
      domContext := scoreDOMContext (validateFactors f).domContext,
      nlpConfidence := scoreNLPConfidence (validateFactors f).nlpConfidence,
      crossReference := scoreCrossReference (validateFactors f).entity ctx,
      contextConsistency := scoreContextConsistency (validateFactors f) ctx }
    (scorePatternMatch_bounds _ h1) (scoreDOMContext_bounds _ h2)
    (scoreNLPConfidence_bounds _ h3) (scoreCrossReference_bounds _ ctx)
    (scoreContextConsistency_bounds (validateFactors f) ctx)

open ConfidenceScorer in
/-- **C4 (witness).** The amended statement at concrete factors (all factor
groups absent, so every validated confidence is 0). -/
theorem calculateScore_bounds_and_level_witness :
    (0 ≤ (calculateScore ⟨none, none, none, none⟩ ⟨none⟩).score ∧
      (calculateScore ⟨none, none, none, none⟩ ⟨none⟩).score ≤ 1) ∧
    (calculateScore ⟨none, none, none, none⟩ ⟨none⟩).level =
      determineConfidenceLevel (calculateScore ⟨none, none, none, none⟩ ⟨none⟩).score ∧
    (∀ s1 s2 : ℚ, s1 ≤ s2 →
      levelRank (determineConfidenceLevel s1) ≤ levelRank (determineConfidenceLevel s2)) ∧
    (∀ s : ℚ,
      (determineConfidenceLevel s = "high" ↔ 0.85 ≤ s) ∧
      (determineConfidenceLevel s = "medium" ↔ 0.65 ≤ s ∧ s < 0.85) ∧
      (determineConfidenceLevel s = "low" ↔ 0.45 ≤ s ∧ s < 0.65) ∧
      (determineConfidenceLevel s = "reject" ↔ s < 0.45)) :=
  calculateScore_bounds_and_level ⟨none, none, none, none⟩ ⟨none⟩
    (by decide) (by decide) (by decide)

/-! ## CompanyKnowledgeBase — `knowledge-base.js` -/

namespace CompanyKnowledgeBase

/-- A stored company record (`addCompany`, lines 522–550).  The metadata rest
spread (`exchange`, `industry`, …) is never read by the embedded operations
and is omitted. -/
structure KBCompany where
  id : String
  name : String
  normalizedName : String
  aliases : List String
  ticker : Option String
  dateAdded : Nat
  lastUpdated : Option Nat
deriving DecidableEq

/-- The knowledge-base state: the companies map and its three indexes
(constructor, lines 404–418).  Index values are JS `Set`s of ids, modelled as
insertion-ordered duplicate-free lists. -/
structure KBState where
  companies : List (String × KBCompany)
  nameIndex : List (String × List String)
  tickerIndex : List (String × String)
  aliasIndex : List (String × List String)
deriving DecidableEq

/-- The empty knowledge base (all maps clear). -/
def emptyKB : KBState := ⟨[], [], [], []⟩

/-- The dynamic value of a decoded record's `aliases` field: a proper array,
or a JSON string (iterable — `new Set(s)` yields its characters — but
without `forEach`, so `aliases.forEach` throws a `TypeError`).  A record with
an absent field decodes as `arr []` (the destructuring default). -/
inductive AliasesField where
  | arr (l : List String)
  | strVal (s : String)
deriving DecidableEq

/-- A decoded company record as consumed by `addCompany`. -/
structure RawCompany where
  id : String
  name : String
  aliases : AliasesField
  ticker : Option String
deriving DecidableEq

/-- `Set.prototype.add`. -/
def addToSetList (x : String) (l : List String) : List String :=
  if x ∈ l then l else l ++ [x]

/-- `addToNameIndex`/`addToAliasIndex` (lines 552–562): get-or-create the id
set, add, and re-set (which keeps the key's position). -/
def addToIdx (key id : String) (idx : List (String × List String)) :
    List (String × List String) :=
  setAssoc key (addToSetList id ((getAssoc key idx).getD [])) idx

/-- `addCompany` (lines 522–550), with the mutation order of the source:
companies map first, then the name index, then the alias loop (which throws
on a string-valued `aliases`, leaving the earlier mutations in place — the
error carries the mutated state), then the ticker index (skipped for a
falsy ticker).  The normalizer is present, so keys go through
`CompanyNormalizer.normalize`. -/
def addCompanyR (kb : KBState) (r : RawCompany) (now : Nat) : Except KBState KBState :=
  let normalizedName := CompanyNormalizer.normalize r.name
  let aliasSet := match r.aliases with
    | AliasesField.arr l => FuzzyMatcher.dedupFirst l
    | AliasesField.strVal s => FuzzyMatcher.dedupFirst (s.data.map (fun c => String.mk [c]))
  let rec0 : KBCompany :=
    ⟨r.id, r.name, normalizedName, aliasSet, r.ticker, now, none⟩
  let kb1 := { kb with companies := setAssoc r.id rec0 kb.companies }
  let kb2 := { kb1 with nameIndex := addToIdx normalizedName r.id kb1.nameIndex }
  match r.aliases with
  | AliasesField.strVal _ => Except.error kb2
  | AliasesField.arr l =>
    let kb3 := l.foldl
      (fun k al => { k with aliasIndex := addToIdx (CompanyNormalizer.normalize al) r.id k.aliasIndex })
      kb2
    let kb4 := match r.ticker with
      | some t =>
        if t ≠ "" then { kb3 with tickerIndex := setAssoc (toUpperStr t) r.id kb3.tickerIndex }
        else kb3
      | none => kb3
    Except.ok kb4

/-- `findByName` (lines 565–574): exact lookup on the normalized name, first
id of the set. -/
def findByName (kb : KBState) (name : String) : Option KBCompany :=
  match getAssoc (CompanyNormalizer.normalize name) kb.nameIndex with
  | none => none
  | some ids =>
    match ids with
    | [] => none
    | i :: _ => getAssoc i kb.companies

/-- `findByTicker` (lines 577–580). -/
def findByTicker (kb : KBState) (ticker : String) : Option KBCompany :=
  (getAssoc (toUpperStr ticker) kb.tickerIndex).bind (fun id => getAssoc id kb.companies)

/-- `findByAlias` (lines 583–591): all matches (entries of a stale id map to
`none`, as `companies.get` yields `undefined`). -/
def findByAlias (kb : KBState) (al : String) : Option (List (Option KBCompany)) :=
  match getAssoc (CompanyNormalizer.normalize al) kb.aliasIndex with
  | none => none
  | some ids =>
    match ids with
    | [] => none
    | _ :: _ => some (ids.map (fun i => getAssoc i kb.companies))

/-- An `updateCompany` payload (the fields `Object.assign` can overwrite that
the embedded operations read). -/
structure UpdatePayload where
  name : Option String
  ticker : Option String
  aliases : Option (List String)
deriving DecidableEq

/-- The record after `Object.assign(company, updates, {lastUpdated})`. -/
def updatedCompanyRecord (c : KBCompany) (u : UpdatePayload) (now : Nat) : KBCompany :=
  { c with
    name := u.name.getD c.name,
    ticker := match u.ticker with | some t => some t | none => c.ticker,
    aliases := u.aliases.getD c.aliases,
    lastUpdated := some now }

/-- `updateCompany` (lines 776–804).  `Object.assign` has already mutated
`company` when `updates.name !== company.name` is evaluated, so the
re-indexing branch compares the new name with itself and never runs; it is
embedded nonetheless. -/
def updateCompany (kb : KBState) (companyId : String) (updates : UpdatePayload) (now : Nat) :
    Bool × KBState :=
  match getAssoc companyId kb.companies with
  | none => (false, kb)
  | some company =>
    let c1 := updatedCompanyRecord company updates now
    let kb1 := { kb with companies := setAssoc companyId c1 kb.companies }
    if (match updates.name with
        | some n => n != "" && n != c1.name
        | none => false) then
      let oldNormalized := c1.normalizedName
      let kb2 := match getAssoc oldNormalized kb1.nameIndex with
        | some ids =>
          let ids1 := ids.filter (fun i => i ≠ companyId)
          if ids1.length = 0 then
            { kb1 with nameIndex := kb1.nameIndex.eraseP (fun p => p.1 == oldNormalized) }
          else { kb1 with nameIndex := setAssoc oldNormalized ids1 kb1.nameIndex }
        | none => kb1
      let newNormalized := CompanyNormalizer.normalize (updates.name.getD "")
      let c2 := { c1 with normalizedName := newNormalized }
      let kb3 := { kb2 with companies := setAssoc companyId c2 kb2.companies }
      (true, { kb3 with nameIndex := addToIdx newNormalized companyId kb3.nameIndex })
    else (true, kb1)

/-- A decoded import payload (`data.companies`; a present non-array or
absent field both skip the loading loop). -/
structure KBPayload where
  companies : Option (List RawCompany)
deriving DecidableEq

/-- The `data.companies.forEach(addCompany)` loop of `fromJSON`: stops at the
first throwing record, the catch returning `false` with the partially
rebuilt state. -/
def loadCompanies (now : Nat) : KBState → List RawCompany → Bool × KBState
  | kb, [] => (true, kb)
  | kb, r :: rs =>
    match addCompanyR kb r now with
    | Except.ok kb1 => loadCompanies now kb1 rs
    | Except.error kb1 => (false, kb1)

/-- `fromJSON` (lines 824–846).  `JSON.parse` runs before any mutation, so a
parse error leaves the prior state fully intact; but the four `.clear()`
calls run before the records are loaded, so a record that throws during
loading leaves the knowledge base cleared and partially reloaded. -/
def fromJSON (parsed : Except Unit KBPayload) (kb : KBState) (now : Nat) : Bool × KBState :=
  match parsed with
  | Except.error _ => (false, kb)
  | Except.ok data =>
    let kb0 : KBState := ⟨[], [], [], []⟩
    match data.companies with
    | some records => loadCompanies now kb0 records
    | none => (true, kb0)

/-- A concrete reachable knowledge base holding one company. -/
def kbEx : KBState :=
  match addCompanyR emptyKB ⟨"acme", "Acme", AliasesField.arr ["AC"], some "ACM"⟩ 0 with
  | Except.ok k => k
  | Except.error k => k

/-- The record `kbEx` stores under id `"acme"`. -/
def acmeStored : KBCompany := ⟨"acme", "Acme", "Acme", ["AC"], some "ACM", 0, none⟩

/-- A payload that parses but whose single record throws while loading
(string-valued `aliases`). -/
def badPayload : KBPayload := ⟨some [⟨"x", "X", AliasesField.strVal "ab", none⟩]⟩

end CompanyKnowledgeBase

open CompanyKnowledgeBase in
/-- **C3 (counterexample).** A corrupted payload that parses but fails while
loading its records is not atomic: `fromJSON` returns `false`, yet the prior
state is gone — the previously indexed ticker `"ACM"` no longer resolves,
because the indexes were cleared before the failing `addCompany` ran. -/
theorem fromJSON_load_failure_destroys_state :
    (fromJSON (Except.ok badPayload) kbEx 1).1 = false ∧
      findByTicker kbEx "ACM" = some acmeStored ∧
      findByTicker (fromJSON (Except.ok badPayload) kbEx 1).2 "ACM" = none := by
  refine ⟨?_, ?_, ?_⟩ <;> with_unfolding_all decide

open CompanyKnowledgeBase in
/-- **C3 (amended).** `fromJSON` is atomic for parse failures only: when
`JSON.parse` throws, it returns `false` with the prior state fully intact, so
`findByName`, `findByAlias` and `findByTicker` answer exactly as before.  (A
failure while loading the decoded records instead leaves the knowledge base
cleared and partially reloaded — see the counterexample.) -/
theorem fromJSON_parse_error_atomic (kb : CompanyKnowledgeBase.KBState) (now : Nat) :
    fromJSON (Except.error ()) kb now = (false, kb) ∧
      (∀ q, findByName (fromJSON (Except.error ()) kb now).2 q = findByName kb q) ∧
      (∀ q, findByAlias (fromJSON (Except.error ()) kb now).2 q = findByAlias kb q) ∧
      (∀ q, findByTicker (fromJSON (Except.error ()) kb now).2 q = findByTicker kb q) :=
  ⟨rfl, fun _ => rfl, fun _ => rfl, fun _ => rfl⟩

open CompanyKnowledgeBase in
/-- **C10.** `updateCompany` re-indexes nothing but (at most) the canonical
name: for every existing company and every payload, the ticker index and the
alias index are left exactly unchanged, even when the payload changes the
record's ticker or aliases.  Consequently, after updating a company's ticker
to a previously unindexed symbol, `findByTicker` with the new ticker returns
`none`, while `findByTicker` with the old ticker still returns the (updated)
record. -/
theorem updateCompany_leaves_ticker_alias_indexes
    (kb : CompanyKnowledgeBase.KBState) (companyId : String)
    (u : CompanyKnowledgeBase.UpdatePayload) (now : Nat)
    (c : CompanyKnowledgeBase.KBCompany)
    (hc : getAssoc companyId kb.companies = some c) :
    (updateCompany kb companyId u now).2.tickerIndex = kb.tickerIndex ∧
      (updateCompany kb companyId u now).2.aliasIndex = kb.aliasIndex ∧
      (∀ t', u.ticker = some t' → getAssoc (toUpperStr t') kb.tickerIndex = none →
        findByTicker (updateCompany kb companyId u now).2 t' = none) ∧
      (∀ t, getAssoc (toUpperStr t) kb.tickerIndex = some companyId →
        findByTicker (updateCompany kb companyId u now).2 t =
          some (updatedCompanyRecord c u now)) := by
  have hmain : updateCompany kb companyId u now =
      (true, { kb with companies := setAssoc companyId (updatedCompanyRecord c u now) kb.companies }) := by
    unfold CompanyKnowledgeBase.updateCompany
    rw [hc]
    dsimp only []
    have hcond : (match u.name with
        | some n => n != "" && n != (updatedCompanyRecord c u now).name
        | none => false) = false := by
      rcases hn : u.name with _ | n
      · rfl
      · have : (updatedCompanyRecord c u now).name = n := by
          unfold CompanyKnowledgeBase.updatedCompanyRecord
          rw [hn]
          rfl
        rw [this]
        simp
    rw [hcond]
    simp
  rw [hmain]
  refine ⟨rfl, rfl, ?_, ?_⟩
  · intro t' ht' hnone
    unfold CompanyKnowledgeBase.findByTicker
    rw [hnone]
    rfl
  · intro t ht
    unfold CompanyKnowledgeBase.findByTicker
    rw [ht]
    dsimp only [Option.bind]
    exact SecureNLPProcessor.getAssoc_setAssoc_self companyId (updatedCompanyRecord c u now)
      kb.companies

open CompanyKnowledgeBase in
/-- **C10 (witness).** The frame property at the concrete one-company
knowledge base: updating the ticker from `"ACM"` to `"NEWT"` leaves both
indexes unchanged, `findByTicker "NEWT"` misses, and `findByTicker "ACM"`
returns the updated record. -/
theorem updateCompany_leaves_ticker_alias_indexes_witness :
    (updateCompany kbEx "acme" ⟨none, some "NEWT", none⟩ 5).2.tickerIndex = kbEx.tickerIndex ∧
      (updateCompany kbEx "acme" ⟨none, some "NEWT", none⟩ 5).2.aliasIndex = kbEx.aliasIndex ∧
      findByTicker (updateCompany kbEx "acme" ⟨none, some "NEWT", none⟩ 5).2 "NEWT" = none ∧
      findByTicker (updateCompany kbEx "acme" ⟨none, some "NEWT", none⟩ 5).2 "ACM" =
        some (updatedCompanyRecord acmeStored ⟨none, some "NEWT", none⟩ 5) := by
  have h := updateCompany_leaves_ticker_alias_indexes kbEx "acme" ⟨none, some "NEWT", none⟩ 5
    acmeStored (by with_unfolding_all decide)
  exact ⟨h.1, h.2.1,
    h.2.2.1 "NEWT" rfl (by with_unfolding_all decide),
    h.2.2.2 "ACM" (by with_unfolding_all decide)⟩
